import Mathlib

/-!
Verification of the blackjack-trainer game engine.

This file gives a shallow embedding of the core game-rules engine
(src/game/deck.py, hand.py, shoe.py, dealer.py, player.py, engine.py)
and proves the specification claims about it.  Python floats used for
money and penetration are modelled as rationals; all values appearing
in the program (bets, 3:2 payouts, half-bet refunds, 0.65 penetration)
are exactly representable.  Mutation is modelled by explicit state
passing; a Python exception is modelled as an `Except` error carrying
the state as it stood at the raise point, so that "no mutation on
failure" is a provable property rather than one true by construction.
The `on_card_exposed` callback is modelled as a trace: the engine state
carries the list of cards passed to the callback so far, in order.
-/

namespace Blackjack

/-- Card suits (deck.py `Suit`). -/
inductive Suit
  | clubs
  | diamonds
  | hearts
  | spades
deriving DecidableEq

/-- The four suits in Python enum declaration order. -/
def allSuits : List Suit := [.clubs, .diamonds, .hearts, .spades]

/-- Card ranks (deck.py `Rank`). -/
inductive Rank
  | two | three | four | five | six | seven | eight | nine | ten
  | jack | queen | king | ace
deriving DecidableEq

/-- The thirteen ranks in Python enum declaration order. -/
def allRanks : List Rank :=
  [.two, .three, .four, .five, .six, .seven, .eight, .nine, .ten,
   .jack, .queen, .king, .ace]

/-- deck.py `RANK_VALUES`: blackjack point value of each rank (Ace counts 11). -/
def Rank.pointValue : Rank → Nat
  | .two => 2
  | .three => 3
  | .four => 4
  | .five => 5
  | .six => 6
  | .seven => 7
  | .eight => 8
  | .nine => 9
  | .ten => 10
  | .jack => 10
  | .queen => 10
  | .king => 10
  | .ace => 11

/-- deck.py `Card`: immutable rank/suit pair. -/
structure Card where
  rank : Rank
  suit : Suit
deriving DecidableEq

/-- deck.py `Card.value`. -/
def Card.value (c : Card) : Nat := c.rank.pointValue

/-- deck.py `Card.is_ace`. -/
def Card.is_ace (c : Card) : Bool := c.rank = Rank.ace

/-- deck.py `Card.is_ten_value`. -/
def Card.is_ten_value (c : Card) : Bool := c.value = 10

/-- deck.py `create_deck`: suits outer, ranks inner, declaration order. -/
def create_deck : List Card :=
  (allSuits.map (fun s => allRanks.map (fun r => Card.mk r s))).flatten

/-- deck.py `DECK_SIZE`. -/
def DECK_SIZE : Nat := 52

/-- hand.py `HandStatus`. -/
inductive HandStatus
  | active
  | stood
  | busted
  | blackjack
  | surrendered
  | doubled
deriving DecidableEq

/-- hand.py `Hand`: cards, status, bet and the two flags. -/
structure Hand where
  cards : List Card
  status : HandStatus
  bet : ℚ
  is_split_hand : Bool
  is_doubled : Bool
deriving DecidableEq

/-- A fresh hand, as produced by the dataclass defaults `Hand()`. -/
def Hand.fresh : Hand :=
  { cards := [], status := .active, bet := 0, is_split_hand := false,
    is_doubled := false }

/-- The Ace-demotion loop of hand.py `Hand.value`: subtract 10 while the
total exceeds 21 and Aces counted as 11 remain.  Recursion is on the
number of remaining demotable Aces, exactly the loop variant. -/
def demoteAces : Nat → Nat → Nat
  | total, 0 => total
  | total, aces + 1 => if total > 21 then demoteAces (total - 10) aces else total

/-- Sum of card point values with every Ace at 11 (first line of `value`). -/
def Hand.rawTotal (h : Hand) : Nat := (h.cards.map Card.value).sum

/-- Number of Aces in the hand (second line of `value`). -/
def Hand.aceCount (h : Hand) : Nat := (h.cards.filter Card.is_ace).length

/-- hand.py `Hand.value`: best value, demoting Aces from 11 to 1 as needed. -/
def Hand.value (h : Hand) : Nat := demoteAces h.rawTotal h.aceCount

/-- The demotion loop of `soft_value`, additionally counting conversions. -/
def demoteAcesCount : Nat → Nat → Nat × Nat
  | total, 0 => (total, 0)
  | total, aces + 1 =>
    if total > 21 then
      let p := demoteAcesCount (total - 10) aces
      (p.1, p.2 + 1)
    else (total, 0)

/-- hand.py `Hand.soft_value`: value together with the softness flag
(an Ace still counted as 11 and total at most 21). -/
def Hand.soft_value (h : Hand) : Nat × Bool :=
  let p := demoteAcesCount h.rawTotal h.aceCount
  (p.1, decide (h.aceCount > p.2) && decide (p.1 ≤ 21))

/-- hand.py `Hand.is_soft`. -/
def Hand.is_soft (h : Hand) : Bool := h.soft_value.2

/-- hand.py `Hand.is_blackjack`: two cards, value 21, not a split hand. -/
def Hand.is_blackjack (h : Hand) : Bool :=
  h.cards.length = 2 && h.value = 21 && !h.is_split_hand

/-- hand.py `Hand.is_busted`. -/
def Hand.is_busted (h : Hand) : Bool := h.value > 21

/-- hand.py `Hand.is_pair`: exactly two cards of identical rank. -/
def Hand.is_pair (h : Hand) : Bool :=
  match h.cards with
  | [c0, c1] => c0.rank = c1.rank
  | _ => false

/-- hand.py `Hand.can_double`. -/
def Hand.can_double (h : Hand) : Bool :=
  h.cards.length = 2 && h.status = HandStatus.active

/-- hand.py `Hand.can_split`. -/
def Hand.can_split (h : Hand) : Bool :=
  h.is_pair && h.status = HandStatus.active

/-- hand.py `Hand.can_hit`. -/
def Hand.can_hit (h : Hand) : Bool :=
  h.status = HandStatus.active && !h.is_busted

/-- hand.py `Hand.can_stand`. -/
def Hand.can_stand (h : Hand) : Bool := h.status = HandStatus.active

/-- hand.py `Hand.can_surrender`. -/
def Hand.can_surrender (h : Hand) : Bool :=
  h.cards.length = 2 && h.status = HandStatus.active

/-- hand.py `Hand.add_card`: append the card, then set BUSTED if over 21. -/
def Hand.add_card (h : Hand) (c : Card) : Hand :=
  let h' := { h with cards := h.cards ++ [c] }
  if h'.value > 21 then { h' with status := .busted } else h'

/-- hand.py `Hand.stand`. -/
def Hand.stand (h : Hand) : Hand := { h with status := .stood }

/-- hand.py `Hand.double_down`: set the doubled flag and DOUBLED status. -/
def Hand.double_down (h : Hand) : Hand :=
  { h with is_doubled := true, status := .doubled }

/-- hand.py `Hand.surrender`. -/
def Hand.surrender (h : Hand) : Hand := { h with status := .surrendered }

/-- hand.py `Hand.upcard`: the first card, if any. -/
def Hand.upcard (h : Hand) : Option Card := h.cards.head?

/-- hand.py `Hand.hole_card`: the second card, if any. -/
def Hand.hole_card (h : Hand) : Option Card := h.cards.get? 1

/-- Distinguishable failure kinds raised by the engine and its parts,
mirroring the error taxonomy: ValueError messages fall into
illegal-action, insufficient-funds and split-budget classes; IndexError
from list indexing and from an empty shoe are separate kinds. -/
inductive ErrKind
  | illegalAction
  | insufficientFunds
  | splitBudget
  | indexErr
  | shoeEmpty
  | attrErr
deriving DecidableEq

/-- hand.py `Hand.split`: two fresh one-card hands inheriting the bet,
flagged as split hands.  Raises ValueError when `can_split` is false.
The inner match is total because `can_split` forces two cards; the
fallback branch is unreachable (proved below). -/
def Hand.split (h : Hand) : Except ErrKind (Hand × Hand) :=
  if h.can_split then
    match h.cards with
    | c0 :: c1 :: _ =>
      .ok ({ cards := [c0], status := .active, bet := h.bet,
             is_split_hand := true, is_doubled := false },
           { cards := [c1], status := .active, bet := h.bet,
             is_split_hand := true, is_doubled := false })
    | _ => .error .indexErr
  else .error .illegalAction

/-- shoe.py `Shoe`: the remaining cards (top of the deck is the END of
the list, matching the Python list), the dealt counter and the
configured penetration fraction. -/
structure Shoe where
  penetration : ℚ
  cards : List Card
  dealt_count : Nat
deriving DecidableEq

/-- shoe.py `Shoe.shuffle`: replace the population with a fresh shuffled
52-card deck and reset the dealt counter.  The random permutation chosen
by `random.shuffle` is modelled as the `deck` parameter; theorems about
shuffling carry the hypothesis that `deck` is a permutation of
`create_deck`. -/
def Shoe.shuffle (s : Shoe) (deck : List Card) : Shoe :=
  { s with cards := deck, dealt_count := 0 }

/-- shoe.py `Shoe.__post_init__` via the dataclass constructor: start
with no cards, then shuffle. -/
def Shoe.init (penetration : ℚ) (deck : List Card) : Shoe :=
  Shoe.shuffle { penetration := penetration, cards := [], dealt_count := 0 } deck

/-- shoe.py `Shoe.deal`: pop the top card (end of the list) and bump the
dealt counter; IndexError on an empty shoe. -/
def Shoe.deal (s : Shoe) : Except ErrKind (Card × Shoe) :=
  match s.cards.getLast? with
  | none => .error .shoeEmpty
  | some c =>
    .ok (c, { s with cards := s.cards.dropLast, dealt_count := s.dealt_count + 1 })

/-- shoe.py `Shoe.burn`: deal `count` cards, skipping the deal whenever
the shoe is empty (the Python loop guards each iteration with
`if self._cards`), returning the burned cards in deal order. -/
def Shoe.burn (s : Shoe) : Nat → List Card × Shoe
  | 0 => ([], s)
  | n + 1 =>
    if s.cards.isEmpty then s.burn n
    else
      match s.deal with
      | .error _ => ([], s)
      | .ok (c, s') =>
        let p := s'.burn n
        (c :: p.1, p.2)

/-- shoe.py `Shoe.cards_remaining`. -/
def Shoe.cards_remaining (s : Shoe) : Nat := s.cards.length

/-- shoe.py `Shoe.penetration_reached`: dealt count over 52. -/
def Shoe.penetration_reached (s : Shoe) : ℚ := (s.dealt_count : ℚ) / 52

/-- shoe.py `Shoe.needs_shuffle`. -/
def Shoe.needs_shuffle (s : Shoe) : Bool := s.penetration_reached ≥ s.penetration

/-- dealer.py `DealerRule`: hit or stand on soft 17. -/
inductive DealerRule
  | h17
  | s17
deriving DecidableEq

/-- dealer.py `Dealer`: one hand, the rule, and the reveal flag. -/
structure Dealer where
  hand : Hand
  rule : DealerRule
  hole_card_revealed : Bool
deriving DecidableEq

/-- dealer.py `Dealer.new_hand`: fresh hand, reveal flag cleared. -/
def Dealer.new_hand (d : Dealer) : Dealer :=
  { d with hand := Hand.fresh, hole_card_revealed := false }

/-- dealer.py `Dealer.receive_card`: add the card to the hand (the
`face_up` argument does not affect dealer state). -/
def Dealer.receive_card (d : Dealer) (c : Card) : Dealer :=
  { d with hand := d.hand.add_card c }

/-- dealer.py `Dealer.upcard`. -/
def Dealer.upcard (d : Dealer) : Option Card := d.hand.upcard

/-- dealer.py `Dealer.hole_card`. -/
def Dealer.hole_card (d : Dealer) : Option Card := d.hand.hole_card

/-- dealer.py `Dealer.reveal_hole_card`: set the flag, return the hole
card (if present). -/
def Dealer.reveal_hole_card (d : Dealer) : Option Card × Dealer :=
  (d.hole_card, { d with hole_card_revealed := true })

/-- dealer.py `Dealer.should_hit`: hit below 17; on soft 17 hit exactly
under the H17 rule; stand otherwise. -/
def Dealer.should_hit (d : Dealer) : Bool :=
  let p := d.hand.soft_value
  if p.1 < 17 then true
  else if p.1 = 17 && p.2 then d.rule = DealerRule.h17
  else false

/-- player.py `Player`: bankroll, hands, bet defaults, split counter. -/
structure Player where
  bankroll : ℚ
  hands : List Hand
  base_bet : ℚ
  max_splits : Nat
  split_count : Nat
deriving DecidableEq

/-- player.py `Player.new_hand`: reject a bet above the bankroll, else
clear hands and split counter, create the hand, debit the bet. -/
def Player.new_hand (p : Player) (bet : Option ℚ) :
    Except (ErrKind × Player) (Hand × Player) :=
  let bet_amount := bet.getD p.base_bet
  if bet_amount > p.bankroll then .error (.insufficientFunds, p)
  else
    let hand : Hand := { Hand.fresh with bet := bet_amount }
    .ok (hand,
      { p with hands := [hand], split_count := 0,
               bankroll := p.bankroll - bet_amount })

/-- player.py `Player.split_hand`: checks in source order (split budget,
index, pair, funds), then debit, split, replace hand i and insert the
second split hand at i+1, bump the split counter.  Failure carries the
player state as of the raise point. -/
def Player.split_hand (p : Player) (i : Nat) :
    Except (ErrKind × Player) ((Hand × Hand) × Player) :=
  if p.split_count ≥ p.max_splits then .error (.splitBudget, p)
  else
    match p.hands.get? i with
    | none => .error (.indexErr, p)
    | some hand =>
      if !hand.can_split then .error (.illegalAction, p)
      else if hand.bet > p.bankroll then .error (.insufficientFunds, p)
      else
        let p₁ := { p with bankroll := p.bankroll - hand.bet }
        match hand.split with
        | .error e => .error (e, p₁)
        | .ok (h1, h2) =>
          .ok ((h1, h2),
            { p₁ with
                hands := (p₁.hands.set i h1).insertIdx (i + 1) h2,
                split_count := p₁.split_count + 1 })

/-- player.py `Player.double_down`: index, eligibility and funds checks,
then debit the bet, double the hand's bet and mark it DOUBLED. -/
def Player.double_down (p : Player) (i : Nat) :
    Except (ErrKind × Player) Player :=
  match p.hands.get? i with
  | none => .error (.indexErr, p)
  | some hand =>
    if !hand.can_double then .error (.illegalAction, p)
    else if hand.bet > p.bankroll then .error (.insufficientFunds, p)
    else
      .ok { p with
              bankroll := p.bankroll - hand.bet,
              hands := p.hands.set i ({ hand with bet := hand.bet * 2 }.double_down) }

/-- player.py `Player.surrender_hand`: index and eligibility checks,
then credit half the bet and mark the hand SURRENDERED. -/
def Player.surrender_hand (p : Player) (i : Nat) :
    Except (ErrKind × Player) (ℚ × Player) :=
  match p.hands.get? i with
  | none => .error (.indexErr, p)
  | some hand =>
    if !hand.can_surrender then .error (.illegalAction, p)
    else
      .ok (hand.bet / 2,
        { p with bankroll := p.bankroll + hand.bet / 2,
                 hands := p.hands.set i hand.surrender })

/-- player.py `Player.receive_payout`: unconditional credit. -/
def Player.receive_payout (p : Player) (amount : ℚ) : Player :=
  { p with bankroll := p.bankroll + amount }

/-- engine.py `Action`. -/
inductive Action
  | hit
  | stand
  | double
  | split
  | surrender
deriving DecidableEq

/-- engine.py `RoundResult`. -/
inductive RoundResult
  | win
  | lose
  | push
  | blackjack
  | surrender
deriving DecidableEq

/-- engine.py `HandResult`: hand, outcome, net payout. -/
structure HandResult where
  hand : Hand
  result : RoundResult
  payout : ℚ
deriving DecidableEq

/-- engine.py `RoundSummary`. -/
structure RoundSummary where
  player_hands : List HandResult
  dealer_hand : Hand
  total_payout : ℚ
deriving DecidableEq

/-- engine.py `GameEngine._create_summary`. -/
def mk_summary (hrs : List HandResult) (dh : Hand) : RoundSummary :=
  { player_hands := hrs, dealer_hand := dh,
    total_payout := (hrs.map HandResult.payout).sum }

/-- engine.py `GameEngine` state: the shoe, player and dealer it owns,
the payout ratio for blackjack, the round flag, and `exposed`, the trace
of cards passed to the `on_card_exposed` callback so far (in call
order). -/
structure EngineState where
  shoe : Shoe
  player : Player
  dealer : Dealer
  exposed : List Card
  blackjack_payout : ℚ
  round_in_progress : Bool
deriving DecidableEq

/-- engine.py `GameEngine._deal_card` specialised to the player hand at
index `i` (every call site passes a player hand object, always face-up):
deal from the shoe, `add_card` into the hand, notify the callback.  A
shoe IndexError propagates with no state mutated. -/
def EngineState.deal_card (st : EngineState) (i : Nat) :
    Except (ErrKind × EngineState) (Card × EngineState) :=
  match st.shoe.deal with
  | .error e => .error (e, st)
  | .ok (card, shoe') =>
    match st.player.hands.get? i with
    | none => .ok (card, { st with shoe := shoe', exposed := st.exposed ++ [card] })
    | some h =>
      .ok (card,
        { st with shoe := shoe',
                  player := { st.player with hands := st.player.hands.set i (h.add_card card) },
                  exposed := st.exposed ++ [card] })

/-- engine.py `GameEngine._deal_to_dealer`: deal from the shoe into the
dealer's hand; notify the callback only when face-up. -/
def EngineState.deal_to_dealer (st : EngineState) (face_up : Bool) :
    Except (ErrKind × EngineState) (Card × EngineState) :=
  match st.shoe.deal with
  | .error e => .error (e, st)
  | .ok (card, shoe') =>
    let st' := { st with shoe := shoe', dealer := st.dealer.receive_card card }
    .ok (card, if face_up then { st' with exposed := st'.exposed ++ [card] } else st')

/-- `dealer.reveal_hole_card()` followed by the engine's
`if hole_card and self.on_card_exposed: self.on_card_exposed(hole_card)`
idiom, which appears verbatim at the three reveal points in engine.py. -/
def EngineState.reveal_hole (st : EngineState) : Option Card × EngineState :=
  let p := st.dealer.reveal_hole_card
  let st₁ := { st with dealer := p.2 }
  match p.1 with
  | none => (none, st₁)
  | some hc => (some hc, { st₁ with exposed := st₁.exposed ++ [hc] })

/-- The opening of engine.py `GameEngine.start_round`: when the shoe
needs a shuffle, shuffle and burn one card, exposing the burned card to
the callback.  `deck` stands for the random permutation drawn by the
shuffle. -/
def EngineState.start_round_shuffle (st : EngineState) (deck : List Card) :
    EngineState :=
  if st.shoe.needs_shuffle then
    let p := (st.shoe.shuffle deck).burn 1
    let st₁ := { st with shoe := p.2 }
    match p.1 with
    | [] => st₁
    | b :: _ => { st₁ with exposed := st₁.exposed ++ [b] }
  else st

/-- The four initial deals of `start_round`, in fixed order: player
card (up), dealer upcard (up), player card (up), dealer hole card
(down). -/
def EngineState.start_round_deals (st : EngineState) :
    Except (ErrKind × EngineState) EngineState :=
  match st.deal_card 0 with
  | .error es => .error es
  | .ok (_, st) =>
    match st.deal_to_dealer true with
    | .error es => .error es
    | .ok (_, st) =>
      match st.deal_card 0 with
      | .error es => .error es
      | .ok (_, st) =>
        match st.deal_to_dealer false with
        | .error es => .error es
        | .ok (_, st) => .ok { st with round_in_progress := true }

/-- The middle of engine.py `GameEngine.start_round`: create the fresh
player and dealer hands, then run the four initial deals. -/
def EngineState.start_round_core (stPre : EngineState) (bet : Option ℚ) :
    Except (ErrKind × EngineState) EngineState :=
  match stPre.player.new_hand bet with
  | .error (e, p') => .error (e, { stPre with player := p' })
  | .ok (_, p') =>
    EngineState.start_round_deals
      { stPre with player := p', dealer := stPre.dealer.new_hand }

/-- engine.py `GameEngine.start_round`: optional shuffle+burn, fresh
player and dealer hands, then the four initial deals.  The Python
return value (the player hand object and the dealer upcard) is
recoverable from the returned state. -/
def EngineState.start_round (st : EngineState) (deck : List Card) (bet : Option ℚ) :
    Except (ErrKind × EngineState) EngineState :=
  EngineState.start_round_core (st.start_round_shuffle deck) bet

/-- Helper for the engine's direct `hand.status = ...` assignments. -/
def EngineState.set_hand_status (st : EngineState) (i : Nat) (s : HandStatus) :
    EngineState :=
  match st.player.hands.get? i with
  | none => st
  | some h =>
    { st with player := { st.player with hands := st.player.hands.set i { h with status := s } } }

/-- engine.py `GameEngine.execute_action`: fetch the hand (IndexError
possible), re-check legality for the requested action, then perform it.
DOUBLE delegates to `Player.double_down`, deals one card and forces the
status to STOOD; SPLIT delegates to `Player.split_hand` and deals one
card to each split hand; SURRENDER delegates to
`Player.surrender_hand`. -/
def EngineState.execute_action (st : EngineState) (a : Action) (i : Nat) :
    Except (ErrKind × EngineState) (Option Card × EngineState) :=
  match st.player.hands.get? i with
  | none => .error (.indexErr, st)
  | some hand =>
    match a with
    | .hit =>
      if !hand.can_hit then .error (.illegalAction, st)
      else
        match st.deal_card i with
        | .error es => .error es
        | .ok (c, st') => .ok (some c, st')
    | .stand =>
      if !hand.can_stand then .error (.illegalAction, st)
      else
        .ok (none,
          { st with player := { st.player with hands := st.player.hands.set i hand.stand } })
    | .double =>
      if !hand.can_double then .error (.illegalAction, st)
      else
        match st.player.double_down i with
        | .error (e, p') => .error (e, { st with player := p' })
        | .ok p' =>
          match ({ st with player := p' } : EngineState).deal_card i with
          | .error es => .error es
          | .ok (c, st₂) => .ok (some c, st₂.set_hand_status i .stood)
    | .split =>
      if !hand.can_split then .error (.illegalAction, st)
      else
        match st.player.split_hand i with
        | .error (e, p') => .error (e, { st with player := p' })
        | .ok (_, p') =>
          match ({ st with player := p' } : EngineState).deal_card i with
          | .error es => .error es
          | .ok (_, st₂) =>
            match st₂.deal_card (i + 1) with
            | .error es => .error es
            | .ok (_, st₃) => .ok (none, st₃)
    | .surrender =>
      if !hand.can_surrender then .error (.illegalAction, st)
      else
        match st.player.surrender_hand i with
        | .error (e, p') => .error (e, { st with player := p' })
        | .ok (_, p') => .ok (none, { st with player := p' })

/-- The dealer hit loop of dealer.py `Dealer.play`, with the dealing
callback inlined from engine.py `play_dealer`.  Each iteration adds the
dealt card to the dealer's hand TWICE, as the source does: the engine's
`deal_callback` calls `dealer.receive_card(card)` and then the loop
body of `Dealer.play` calls `self.receive_card(card)` again on the
returned card; the callback notifies `on_card_exposed` once.  Fuel
bounds the iteration count; callers pass one more than the shoe size,
so the loop runs until the policy stands, the hand busts, or the shoe
raises IndexError — exactly the Python termination behaviour. -/
def EngineState.dealer_loop : Nat → EngineState → Except (ErrKind × EngineState) EngineState
  | 0, st => .ok st
  | fuel + 1, st =>
    if st.dealer.should_hit && !st.dealer.hand.is_busted then
      match st.shoe.deal with
      | .error e => .error (e, st)
      | .ok (card, shoe') =>
        EngineState.dealer_loop fuel
          { st with shoe := shoe',
                    dealer := (st.dealer.receive_card card).receive_card card,
                    exposed := st.exposed ++ [card] }
    else .ok st

/-- The opening of engine.py `GameEngine.play_dealer`: the engine's
reveal (with callback notification), then dealer.py `Dealer.play`'s own
reveal guard, which is a no-op because the flag was just set. -/
def EngineState.play_dealer_pre (st : EngineState) : EngineState :=
  let st₁ := (st.reveal_hole).2
  if st₁.dealer.hole_card_revealed then st₁
  else { st₁ with dealer := (st₁.dealer.reveal_hole_card).2 }

/-- The closing of dealer.py `Dealer.play`: record the terminal STOOD
or BUSTED status on the dealer's hand. -/
def dealer_final (d : Dealer) : Dealer :=
  if !d.hand.is_busted then { d with hand := { d.hand with status := .stood } }
  else { d with hand := { d.hand with status := .busted } }

/-- engine.py `GameEngine.play_dealer`: reveal the hole card (notifying
the callback when present), then dealer.py `Dealer.play` — hit until
standing, and record the terminal STOOD or BUSTED status. -/
def EngineState.play_dealer (st : EngineState) : Except (ErrKind × EngineState) EngineState :=
  match EngineState.dealer_loop ((st.play_dealer_pre).shoe.cards.length + 1)
      st.play_dealer_pre with
  | .error es => .error es
  | .ok st₃ => .ok { st₃ with dealer := dealer_final st₃.dealer }

/-- engine.py `GameEngine.check_early_blackjack`: peek only when the
player holds blackjack or the upcard is an Ace or ten-value; resolve
immediately on dealer blackjack (push or loss) or player-only blackjack
(3:2-style payout), revealing the hole card in every resolving branch;
otherwise return no resolution. -/
def EngineState.check_early_blackjack (st : EngineState) :
    Except (ErrKind × EngineState) (Option RoundSummary × EngineState) :=
  match st.player.hands.get? 0 with
  | none => .error (.indexErr, st)
  | some player_hand =>
    match st.dealer.upcard with
    | none => .error (.attrErr, st)
    | some dealer_upcard =>
      let player_bj := player_hand.is_blackjack
      let dealer_might := dealer_upcard.is_ace || dealer_upcard.is_ten_value
      if player_bj || dealer_might then
        if st.dealer.hand.is_blackjack then
          let st₁ := (st.reveal_hole).2
          if player_bj then
            let st₂ := { st₁ with player := st₁.player.receive_payout player_hand.bet }
            .ok (some (mk_summary [⟨player_hand, .push, 0⟩] st₂.dealer.hand), st₂)
          else
            .ok (some (mk_summary [⟨player_hand, .lose, -player_hand.bet⟩] st₁.dealer.hand), st₁)
        else
          if player_bj then
            let payout := player_hand.bet * st.blackjack_payout
            let st₁ := { st with player := st.player.receive_payout (player_hand.bet + payout) }
            let st₂ := (st₁.reveal_hole).2
            .ok (some (mk_summary [⟨player_hand, .blackjack, payout⟩] st₂.dealer.hand), st₂)
          else .ok (none, st)
      else .ok (none, st)

/-- One player hand's entry in engine.py `GameEngine.resolve_round`:
the HandResult recorded for it and the amount credited back to the
bankroll via `receive_payout` (zero when no credit happens). -/
def resolveHand (dealer_value : Nat) (dealer_busted : Bool) (h : Hand) :
    HandResult × ℚ :=
  if h.status = HandStatus.surrendered then (⟨h, .surrender, -(h.bet / 2)⟩, 0)
  else if h.is_busted then (⟨h, .lose, -h.bet⟩, 0)
  else if dealer_busted then (⟨h, .win, h.bet⟩, h.bet * 2)
  else if h.value > dealer_value then (⟨h, .win, h.bet⟩, h.bet * 2)
  else if h.value < dealer_value then (⟨h, .lose, -h.bet⟩, 0)
  else (⟨h, .push, 0⟩, h.bet)

/-- engine.py `GameEngine.resolve_round`: score every player hand
against the dealer's final value, crediting the bankroll per hand (the
per-hand `receive_payout` calls sum to one credit of the total). -/
def EngineState.resolve_round (st : EngineState) : RoundSummary × EngineState :=
  let dealer_value := st.dealer.hand.value
  let dealer_busted := st.dealer.hand.is_busted
  let results := st.player.hands.map (resolveHand dealer_value dealer_busted)
  (mk_summary (results.map Prod.fst) st.dealer.hand,
   { st with round_in_progress := false,
             player := st.player.receive_payout ((results.map Prod.snd).sum) })

/-! ## Reference quantities and shared concrete cards -/

/-- Value of a card with an Ace counted as 1 (spec reference quantity
for the valuation bounds: the sum of these is the all-Aces-low total). -/
def Card.low_value (c : Card) : Nat := if c.is_ace then 1 else c.value

/-- Sum of card values with every Ace counted as 1. -/
def Hand.minTotal (h : Hand) : Nat := (h.cards.map Card.low_value).sum

/-- shoe.py `Shoe.cards_dealt` accessor. -/
def Shoe.cards_dealt (s : Shoe) : Nat := s.dealt_count

/-- A deal or burn call, for stating the shoe conservation invariant
over arbitrary call sequences. -/
inductive ShoeOp
  | dealOp
  | burnOp (n : Nat)

/-- Apply one shoe call; a failed `deal` raises IndexError leaving the
shoe unchanged. -/
def applyShoeOp (s : Shoe) : ShoeOp → Shoe
  | .dealOp =>
    match s.deal with
    | .error _ => s
    | .ok (_, s') => s'
  | .burnOp n => (s.burn n).2

/-- Run a sequence of deal/burn calls. -/
def runShoeOps (s : Shoe) : List ShoeOp → Shoe
  | [] => s
  | op :: ops => runShoeOps (applyShoeOp s op) ops

def aceS : Card := ⟨.ace, .spades⟩
def kingD : Card := ⟨.king, .diamonds⟩
def kingH : Card := ⟨.king, .hearts⟩
def queenC : Card := ⟨.queen, .clubs⟩
def tenC : Card := ⟨.ten, .clubs⟩
def tenS : Card := ⟨.ten, .spades⟩
def nineD : Card := ⟨.nine, .diamonds⟩
def eightC : Card := ⟨.eight, .clubs⟩
def eightD : Card := ⟨.eight, .diamonds⟩
def sixD : Card := ⟨.six, .diamonds⟩
def fiveH : Card := ⟨.five, .hearts⟩
def threeS : Card := ⟨.three, .spades⟩

/-- An ACTIVE, unsplit, undoubled hand holding the given cards and bet. -/
def mkHand (cs : List Card) (bet : ℚ) : Hand :=
  { cards := cs, status := .active, bet := bet, is_split_hand := false,
    is_doubled := false }

/-! ## Valuation lemmas (C7) -/

theorem demoteAces_le (a : Nat) : ∀ t : Nat, demoteAces t a ≤ t := by
  induction a with
  | zero => intro t; simp [demoteAces]
  | succ a ih =>
    intro t
    simp only [demoteAces]
    split
    · exact le_trans (ih (t - 10)) (Nat.sub_le t 10)
    · exact le_refl t

theorem demoteAces_ge (a : Nat) : ∀ t : Nat, t - 10 * a ≤ demoteAces t a := by
  induction a with
  | zero => intro t; simp [demoteAces]
  | succ a ih =>
    intro t
    simp only [demoteAces]
    split
    · have := ih (t - 10)
      omega
    · omega

theorem demoteAces_over (a : Nat) :
    ∀ t : Nat, 21 < demoteAces t a → demoteAces t a = t - 10 * a := by
  induction a with
  | zero => intro t _; simp [demoteAces]
  | succ a ih =>
    intro t hgt
    simp only [demoteAces] at hgt ⊢
    split
    · rename_i hc
      rw [if_pos hc] at hgt
      have h1 := ih (t - 10) hgt
      have h2 : 21 < t := hc
      omega
    · rename_i hc
      rw [if_neg hc] at hgt
      omega

theorem card_value_split (c : Card) :
    c.value = c.low_value + (if c.is_ace then 10 else 0) := by
  rcases c with ⟨r, s⟩
  cases r <;> simp [Card.value, Card.low_value, Card.is_ace, Rank.pointValue]

theorem rawTotal_eq_minTotal_add (h : Hand) :
    h.rawTotal = h.minTotal + 10 * h.aceCount := by
  unfold Hand.rawTotal Hand.minTotal Hand.aceCount
  induction h.cards with
  | nil => simp
  | cons c cs ih =>
    simp only [List.map_cons, List.sum_cons, List.filter_cons]
    rw [card_value_split c]
    by_cases hc : c.is_ace
    · simp only [hc, if_true]
      simp only [List.length_cons]
      omega
    · simp only [hc, if_false]
      simp only [Bool.false_eq_true, if_false] at *
      omega

/-- Claim C7: the reference valuation bounds.  The best value demotes
Aces from 11 to 1 while the total exceeds 21; consequently it lies
between the all-Aces-low total and the all-Aces-high total, it exceeds
21 only when even the all-low total does (in which case it equals the
all-low total), and the examples A+K = 21, A+A+K = 12 compute as
expected. -/
theorem c7_value_reference_bounds (h : Hand) :
    h.minTotal ≤ h.value ∧ h.value ≤ h.rawTotal ∧
      (21 < h.value → h.value = h.minTotal) := by
  have hge := demoteAces_ge h.aceCount h.rawTotal
  have hle := demoteAces_le h.aceCount h.rawTotal
  have hover := demoteAces_over h.aceCount h.rawTotal
  have hsum := rawTotal_eq_minTotal_add h
  unfold Hand.value
  refine ⟨?_, hle, ?_⟩
  · omega
  · intro hgt
    have := hover hgt
    omega

/-- Witness for C7 on a concrete busted hand K+Q+5 (value 25). -/
theorem c7_value_reference_bounds_witness :
    21 < (mkHand [kingD, queenC, fiveH] 10).value ∧
      (mkHand [kingD, queenC, fiveH] 10).value =
        (mkHand [kingD, queenC, fiveH] 10).minTotal :=
  ⟨by decide, (c7_value_reference_bounds (mkHand [kingD, queenC, fiveH] 10)).2.2 (by decide)⟩

/-! ## Dealer policy (C8) -/

/-- Claim C8: `should_hit` is true exactly when the soft-value total is
below 17, or the total is exactly 17, the hand is soft, and the rule is
H17; it is a pure function of the hand and rule, so an H17 dealer on
A♠+6♦ (soft 17) hits while an S17 dealer on the same cards stands. -/
theorem c8_should_hit_policy :
    (∀ d : Dealer,
      d.should_hit = true ↔
        (d.hand.soft_value.1 < 17 ∨
          (d.hand.soft_value.1 = 17 ∧ d.hand.soft_value.2 = true ∧
            d.rule = DealerRule.h17))) ∧
    (Dealer.mk (mkHand [aceS, sixD] 0) .h17 false).should_hit = true ∧
    (Dealer.mk (mkHand [aceS, sixD] 0) .s17 false).should_hit = false := by
  refine ⟨?_, by decide, by decide⟩
  intro d
  unfold Dealer.should_hit
  rcases hp : d.hand.soft_value with ⟨v, soft⟩
  by_cases hv : v < 17
  · simp [hv]
  · simp only [hv, if_false]
    by_cases h17 : v = 17 ∧ soft = true
    · rcases h17 with ⟨hveq, hsoft⟩
      subst hveq hsoft
      simp
    · have hfalse : (decide (v = 17) && soft) = false := by
        cases hs : soft
        · simp
        · simp only [Bool.and_true, decide_eq_false_iff_not]
          intro hveq
          exact h17 ⟨hveq, hs⟩
      simp [hfalse]
      intro hveq hsoft
      exact absurd ⟨hveq, hsoft⟩ h17

/-! ## Shoe lemmas (C6, C9) -/

theorem list_getLast?_decomp {l : List Card} {c : Card} (h : l.getLast? = some c) :
    l = l.dropLast ++ [c] := by
  induction l with
  | nil => simp at h
  | cons a t ih =>
    cases t with
    | nil =>
      simp only [List.getLast?_singleton, Option.some.injEq] at h
      simp [h]
    | cons b t' =>
      rw [List.getLast?_cons_cons] at h
      have ht := ih h
      calc a :: b :: t' = a :: ((b :: t').dropLast ++ [c]) := by rw [← ht]
        _ = (a :: b :: t').dropLast ++ [c] := by simp

/-- Successful `deal` pops exactly the last card and bumps the counter. -/
theorem Shoe.deal_ok_decomp {s s' : Shoe} {c : Card} (h : s.deal = .ok (c, s')) :
    s.cards = s'.cards ++ [c] ∧ s'.dealt_count = s.dealt_count + 1 ∧
      s'.penetration = s.penetration := by
  unfold Shoe.deal at h
  cases hg : s.cards.getLast? with
  | none => rw [hg] at h; exact absurd h (by simp)
  | some c0 =>
    rw [hg] at h
    simp only [Except.ok.injEq, Prod.mk.injEq] at h
    obtain ⟨hc, hs⟩ := h
    subst hc
    refine ⟨?_, by rw [← hs], by rw [← hs]⟩
    rw [← hs]
    exact list_getLast?_decomp hg

/-- `deal` on a nonempty shoe succeeds. -/
theorem Shoe.deal_ok_of_ne_nil {s : Shoe} (h : s.cards ≠ []) :
    ∃ c s', s.deal = .ok (c, s') := by
  unfold Shoe.deal
  cases hg : s.cards.getLast? with
  | none => exact absurd (List.getLast?_eq_none_iff.mp hg) h
  | some c0 => exact ⟨c0, _, rfl⟩

/-- The conservation invariant is preserved by any single deal or burn
call (a deal on an empty shoe raises and changes nothing). -/
theorem applyShoeOp_conserves (op : ShoeOp) :
    ∀ s : Shoe, s.cards_remaining + s.cards_dealt = 52 →
      (applyShoeOp s op).cards_remaining + (applyShoeOp s op).cards_dealt = 52 := by
  cases op with
  | dealOp =>
    intro s hinv
    cases hd : s.deal with
    | error e => simpa [applyShoeOp, hd] using hinv
    | ok p =>
      rcases p with ⟨c, s'⟩
      simp only [applyShoeOp, hd]
      obtain ⟨hcards, hcount, -⟩ := Shoe.deal_ok_decomp hd
      have hlen : s.cards.length = s'.cards.length + 1 := by
        rw [hcards]; simp
      unfold Shoe.cards_remaining Shoe.cards_dealt at *
      omega
  | burnOp n =>
    induction n with
    | zero => intro s hinv; simpa [applyShoeOp, Shoe.burn] using hinv
    | succ n ih =>
      intro s hinv
      unfold applyShoeOp Shoe.burn
      by_cases he : s.cards.isEmpty
      · simp only [he, if_true]
        exact ih s hinv
      · simp only [he, if_false]
        obtain ⟨c, s', hd⟩ := Shoe.deal_ok_of_ne_nil (by simpa using he)
        rw [hd]
        obtain ⟨hcards, hcount, -⟩ := Shoe.deal_ok_decomp hd
        have hlen : s.cards.length = s'.cards.length + 1 := by rw [hcards]; simp
        have hinv' : s'.cards_remaining + s'.cards_dealt = 52 := by
          unfold Shoe.cards_remaining Shoe.cards_dealt at *
          omega
        exact ih s' hinv'

/-- Claim C6: shoe conservation.  `shuffle` with any permutation of the
canonical deck re-establishes 52 remaining, 0 dealt and a full fresh
52-card population, and every sequence of `deal`/`burn` calls preserves
`cards_remaining + cards_dealt = 52` at every observation point (every
prefix of the sequence is itself such a sequence). -/
theorem c6_shoe_conservation :
    (∀ (s : Shoe) (deck : List Card), deck.Perm create_deck →
      (s.shuffle deck).cards_remaining = 52 ∧ (s.shuffle deck).cards_dealt = 0 ∧
        (s.shuffle deck).cards.Perm create_deck) ∧
    (∀ (ops : List ShoeOp) (s : Shoe),
      s.cards_remaining + s.cards_dealt = 52 →
      (runShoeOps s ops).cards_remaining + (runShoeOps s ops).cards_dealt = 52) := by
  constructor
  · intro s deck hperm
    refine ⟨?_, rfl, hperm⟩
    unfold Shoe.shuffle Shoe.cards_remaining
    simp only
    rw [hperm.length_eq]
    decide
  · intro ops
    induction ops with
    | nil => intro s hinv; simpa [runShoeOps] using hinv
    | cons op ops ih =>
      intro s hinv
      unfold runShoeOps
      exact ih _ (applyShoeOp_conserves op s hinv)

/-- Witness for C6 at the identity shuffle and a deal-then-burn-2
sequence from a fresh shoe. -/
theorem c6_shoe_conservation_witness :
    ((Shoe.init (13/20) create_deck).shuffle create_deck).cards_remaining = 52 ∧
    ((Shoe.init (13/20) create_deck).shuffle create_deck).cards_dealt = 0 ∧
    (runShoeOps (Shoe.init (13/20) create_deck) [.dealOp, .burnOp 2]).cards_remaining +
      (runShoeOps (Shoe.init (13/20) create_deck) [.dealOp, .burnOp 2]).cards_dealt = 52 :=
  ⟨(c6_shoe_conservation.1 _ create_deck (List.Perm.refl _)).1,
   (c6_shoe_conservation.1 _ create_deck (List.Perm.refl _)).2.1,
   c6_shoe_conservation.2 [.dealOp, .burnOp 2] _ (by decide)⟩

/-- A penetration above 1 can never be reached on a single 52-card
deck, so `needs_shuffle` stays false. -/
theorem shoe_needs_shuffle_false_of_over {s : Shoe} (hle : s.dealt_count ≤ 52)
    (hgt : 1 < s.penetration) : s.needs_shuffle = false := by
  unfold Shoe.needs_shuffle Shoe.penetration_reached
  rw [decide_eq_false_iff_not]
  intro hge
  have hcast : (s.dealt_count : ℚ) ≤ 52 := by exact_mod_cast hle
  have hreach : (s.dealt_count : ℚ) / 52 ≤ 1 := by
    rw [div_le_one (by norm_num : (0:ℚ) < 52)]
    exact hcast
  linarith [ge_iff_le.mp hge]

set_option maxRecDepth 40000 in
/-- Counterexample to C9: constructing a Shoe with penetration 3/2 —
far outside [0,1] — raises no failure: the constructor is total, the
out-of-range value is stored unchanged (not clamped), and it takes
effect as given, so even a fully dealt shoe reports no reshuffle need
(a value clamped into [0,1] would report true here). -/
theorem c9_counterexample :
    (Shoe.init (3/2) create_deck).penetration = 3/2 ∧
    ¬ (Shoe.init (3/2) create_deck).penetration ≤ 1 ∧
    (Shoe.init (3/2) create_deck).cards_remaining = 52 ∧
    (runShoeOps (Shoe.init (3/2) create_deck) (List.replicate 52 .dealOp)).cards_dealt = 52 ∧
    (runShoeOps (Shoe.init (3/2) create_deck) (List.replicate 52 .dealOp)).needs_shuffle = false := by
  refine ⟨rfl, by simp only [Shoe.init, Shoe.shuffle]; norm_num, rfl, ?_, ?_⟩
  · decide
  · refine shoe_needs_shuffle_false_of_over ?_ ?_
    · decide
    · show (1:ℚ) < (runShoeOps (Shoe.init (3/2) create_deck) (List.replicate 52 .dealOp)).penetration
      have hpen : (runShoeOps (Shoe.init (3/2) create_deck)
          (List.replicate 52 .dealOp)).penetration = 3/2 := rfl
      rw [hpen]
      norm_num

/-- Claim C9 as amended: no configuration input is validated at Shoe
construction time — any penetration value is accepted as given, stored
unclamped with a fresh deck and zero dealt count, and a stored
penetration above 1 makes `needs_shuffle` permanently false for a
single 52-card deck. -/
theorem c9_amended_no_validation (pen : ℚ) (deck : List Card) :
    (Shoe.init pen deck).penetration = pen ∧
    (Shoe.init pen deck).cards = deck ∧
    (Shoe.init pen deck).dealt_count = 0 ∧
    (∀ s : Shoe, s.penetration = pen → 1 < pen → s.dealt_count ≤ 52 →
      s.needs_shuffle = false) := by
  refine ⟨rfl, rfl, rfl, ?_⟩
  intro s hpen hgt hle
  exact shoe_needs_shuffle_false_of_over hle (hpen ▸ hgt)

/-- Witness for C9's amended claim at penetration 3/2 and a fully dealt
shoe. -/
theorem c9_amended_no_validation_witness :
    (Shoe.init (3/2) [aceS]).penetration = 3/2 ∧
    (Shoe.mk (3/2) [] 52).needs_shuffle = false :=
  ⟨(c9_amended_no_validation (3/2) [aceS]).1,
   (c9_amended_no_validation (3/2) [aceS]).2.2.2 (Shoe.mk (3/2) [] 52) rfl
     (by norm_num) (by norm_num)⟩

/-! ## Player split bookkeeping (C5) -/

theorem set_insertIdx_split {l : List Hand} {i : Nat} (h : i < l.length)
    (x y : Hand) :
    (l.set i x).insertIdx (i + 1) y = l.take i ++ [x, y] ++ l.drop (i + 1) := by
  induction l generalizing i with
  | nil => simp at h
  | cons a t ih =>
    cases i with
    | zero => simp
    | succ i =>
      have h' : i < t.length := by simpa using h
      have := ih h'
      simp only [List.set_cons_succ, List.insertIdx_succ_cons, this,
        List.take_succ_cons, List.drop_succ_cons, List.cons_append]

/-- A splittable hand holds exactly two cards. -/
theorem can_split_two_cards {h : Hand} (hs : h.can_split = true) :
    ∃ c0 c1, h.cards = [c0, c1] := by
  unfold Hand.can_split Hand.is_pair at hs
  rcases hc : h.cards with _ | ⟨c0, _ | ⟨c1, _ | _⟩⟩ <;> rw [hc] at hs <;>
    simp_all

/-- Claim C5: `split_hand(i)` fails (with the player untouched) on an
exhausted split budget, a non-splittable hand, or insufficient
bankroll; on success it debits exactly the original bet once more,
replaces hand i by two one-card ACTIVE split hands inheriting the bet,
inserts the second immediately after the first preserving the order of
all other hands, and increments the split counter. -/
theorem c5_split_hand (p : Player) (i : Nat) :
    (p.max_splits ≤ p.split_count → p.split_hand i = .error (.splitBudget, p)) ∧
    (∀ h, p.split_count < p.max_splits → p.hands.get? i = some h →
      h.can_split = false → p.split_hand i = .error (.illegalAction, p)) ∧
    (∀ h, p.split_count < p.max_splits → p.hands.get? i = some h →
      h.can_split = true → p.bankroll < h.bet →
      p.split_hand i = .error (.insufficientFunds, p)) ∧
    (∀ h1 h2 p', p.split_hand i = .ok ((h1, h2), p') →
      ∃ h c0 c1, p.hands.get? i = some h ∧ h.cards = [c0, c1] ∧
        h1 = Hand.mk [c0] .active h.bet true false ∧
        h2 = Hand.mk [c1] .active h.bet true false ∧
        p'.bankroll = p.bankroll - h.bet ∧
        p'.hands = p.hands.take i ++ [h1, h2] ++ p.hands.drop (i + 1) ∧
        p'.split_count = p.split_count + 1 ∧
        p'.base_bet = p.base_bet ∧ p'.max_splits = p.max_splits) := by
  refine ⟨?_, ?_, ?_, ?_⟩
  · intro hbudget
    unfold Player.split_hand
    rw [if_pos (by omega)]
  · intro h hlt hget hcs
    unfold Player.split_hand
    rw [if_neg (by omega), hget]
    simp [hcs]
  · intro h hlt hget hcs hfunds
    unfold Player.split_hand
    rw [if_neg (by omega), hget]
    simp only [hcs, Bool.not_true, Bool.false_eq_true, if_false]
    rw [if_pos (by exact hfunds)]
  · intro h1 h2 p' hok
    unfold Player.split_hand at hok
    by_cases hbudget : p.split_count ≥ p.max_splits
    · rw [if_pos hbudget] at hok; exact absurd hok (by simp)
    rw [if_neg hbudget] at hok
    cases hget : p.hands.get? i with
    | none => rw [hget] at hok; exact absurd hok (by simp)
    | some h =>
      rw [hget] at hok
      by_cases hcs : h.can_split
      · simp only [hcs, Bool.not_true, Bool.false_eq_true, if_false] at hok
        by_cases hfunds : h.bet > p.bankroll
        · rw [if_pos hfunds] at hok; exact absurd hok (by simp)
        rw [if_neg hfunds] at hok
        obtain ⟨c0, c1, hcards⟩ := can_split_two_cards hcs
        unfold Hand.split at hok
        rw [if_pos hcs, hcards] at hok
        simp only [Except.ok.injEq, Prod.mk.injEq] at hok
        obtain ⟨⟨hh1, hh2⟩, hp'⟩ := hok
        have hilen : i < p.hands.length := List.get?_eq_some.mp hget |>.1
        subst hh1
        subst hh2
        subst hp'
        exact ⟨h, c0, c1, rfl, hcards, rfl, rfl, rfl,
          set_insertIdx_split hilen _ _, rfl, rfl, rfl⟩
      · simp only [hcs] at hok
        exact absurd hok (by simp)

def pPair : Player :=
  ⟨980, [mkHand [eightC, eightD] 10], 10, 3, 0⟩

/-- Witness for C5: splitting a concrete pair of eights. -/
theorem c5_split_hand_witness :
    ∃ h c0 c1, pPair.hands.get? 0 = some h ∧ h.cards = [c0, c1] ∧
      Hand.mk [eightC] .active (10:ℚ) true false = Hand.mk [c0] .active h.bet true false ∧
      Hand.mk [eightD] .active (10:ℚ) true false = Hand.mk [c1] .active h.bet true false ∧
      ((980:ℚ) - 10) = pPair.bankroll - h.bet ∧
      (Player.mk ((980:ℚ) - 10)
        [Hand.mk [eightC] .active (10:ℚ) true false,
         Hand.mk [eightD] .active (10:ℚ) true false] 10 3 (0 + 1)).hands =
        pPair.hands.take 0 ++
          [Hand.mk [eightC] .active (10:ℚ) true false,
           Hand.mk [eightD] .active (10:ℚ) true false] ++ pPair.hands.drop 1 ∧
      (0 + 1 : Nat) = pPair.split_count + 1 ∧
      (10:ℚ) = pPair.base_bet ∧ (3:Nat) = pPair.max_splits :=
  (c5_split_hand pPair 0).2.2.2
    (Hand.mk [eightC] .active (10:ℚ) true false)
    (Hand.mk [eightD] .active (10:ℚ) true false)
    (Player.mk ((980:ℚ) - 10)
      [Hand.mk [eightC] .active (10:ℚ) true false,
       Hand.mk [eightD] .active (10:ℚ) true false] 10 3 (0 + 1))
    rfl

/-! ## Atomicity on failure (C4) -/

theorem shoe_deal_error {s : Shoe} {e : ErrKind} (h : s.deal = .error e) :
    e = .shoeEmpty := by
  unfold Shoe.deal at h
  cases hg : s.cards.getLast? <;> rw [hg] at h <;> simp_all

theorem deal_card_error {st : EngineState} {i : Nat} {e : ErrKind}
    {st' : EngineState} (h : st.deal_card i = .error (e, st')) :
    e = .shoeEmpty ∧ st' = st := by
  unfold EngineState.deal_card at h
  cases hd : st.shoe.deal with
  | error e0 =>
    rw [hd] at h
    simp only [Except.error.injEq, Prod.mk.injEq] at h
    exact ⟨h.1 ▸ shoe_deal_error hd, h.2.symm⟩
  | ok p =>
    rw [hd] at h
    cases hg : st.player.hands.get? i <;> rw [hg] at h <;> simp_all

theorem new_hand_error {p : Player} {bet : Option ℚ} {e : ErrKind}
    {p' : Player} (h : p.new_hand bet = .error (e, p')) :
    e = .insufficientFunds ∧ p' = p := by
  unfold Player.new_hand at h
  by_cases hc : bet.getD p.base_bet > p.bankroll
  · rw [if_pos hc] at h
    simp only [Except.error.injEq, Prod.mk.injEq] at h
    exact ⟨h.1.symm, h.2.symm⟩
  · rw [if_neg hc] at h
    exact absurd h (by simp)

theorem split_hand_error {p : Player} {i : Nat} {e : ErrKind} {p' : Player}
    (h : p.split_hand i = .error (e, p')) : p' = p := by
  unfold Player.split_hand at h
  by_cases hbudget : p.split_count ≥ p.max_splits
  · rw [if_pos hbudget] at h
    simp only [Except.error.injEq, Prod.mk.injEq] at h
    exact h.2.symm
  rw [if_neg hbudget] at h
  cases hget : p.hands.get? i with
  | none =>
    rw [hget] at h
    simp only [Except.error.injEq, Prod.mk.injEq] at h
    exact h.2.symm
  | some hand =>
    rw [hget] at h
    by_cases hcs : hand.can_split
    · simp only [hcs, Bool.not_true, Bool.false_eq_true, if_false] at h
      by_cases hfunds : hand.bet > p.bankroll
      · rw [if_pos hfunds] at h
        simp only [Except.error.injEq, Prod.mk.injEq] at h
        exact h.2.symm
      · rw [if_neg hfunds] at h
        obtain ⟨c0, c1, hcards⟩ := can_split_two_cards hcs
        unfold Hand.split at h
        rw [if_pos hcs, hcards] at h
        exact absurd h (by simp)
    · simp only [hcs] at h
      simp only [Bool.not_false, if_true, Except.error.injEq, Prod.mk.injEq] at h
      exact h.2.symm

theorem double_down_error {p : Player} {i : Nat} {e : ErrKind} {p' : Player}
    (h : p.double_down i = .error (e, p')) : p' = p := by
  unfold Player.double_down at h
  cases hget : p.hands.get? i with
  | none =>
    rw [hget] at h
    simp only [Except.error.injEq, Prod.mk.injEq] at h
    exact h.2.symm
  | some hand =>
    rw [hget] at h
    by_cases hcd : hand.can_double
    · simp only [hcd, Bool.not_true, Bool.false_eq_true, if_false] at h
      by_cases hfunds : hand.bet > p.bankroll
      · rw [if_pos hfunds] at h
        simp only [Except.error.injEq, Prod.mk.injEq] at h
        exact h.2.symm
      · rw [if_neg hfunds] at h
        exact absurd h (by simp)
    · simp only [hcd, Bool.not_false, if_true, Except.error.injEq,
        Prod.mk.injEq] at h
      exact h.2.symm

theorem surrender_hand_error {p : Player} {i : Nat} {e : ErrKind} {p' : Player}
    (h : p.surrender_hand i = .error (e, p')) : p' = p := by
  unfold Player.surrender_hand at h
  cases hget : p.hands.get? i with
  | none =>
    rw [hget] at h
    simp only [Except.error.injEq, Prod.mk.injEq] at h
    exact h.2.symm
  | some hand =>
    rw [hget] at h
    by_cases hcs : hand.can_surrender
    · simp only [hcs, Bool.not_true, Bool.false_eq_true, if_false] at h
      exact absurd h (by simp)
    · simp only [hcs, Bool.not_false, if_true, Except.error.injEq,
        Prod.mk.injEq] at h
      exact h.2.symm

/-- Replacing the player of an engine state by itself is the identity. -/
theorem engine_set_player_self (st : EngineState) :
    { st with player := st.player } = st := rfl

/-- Claim C4: whenever `execute_action`, `Player.new_hand`,
`Player.split_hand`, `Player.double_down` or `Player.surrender_hand`
raises one of the taxonomy errors (illegal action, insufficient funds,
split budget exceeded — every failure these can raise except shoe
exhaustion, which the claim excludes), no mutation has happened: the
carried state equals the state before the call. -/
theorem c4_no_mutation_on_failure :
    (∀ (p : Player) (bet : Option ℚ) (e : ErrKind) (p' : Player),
      p.new_hand bet = .error (e, p') → p' = p) ∧
    (∀ (p : Player) (i : Nat) (e : ErrKind) (p' : Player),
      p.split_hand i = .error (e, p') → p' = p) ∧
    (∀ (p : Player) (i : Nat) (e : ErrKind) (p' : Player),
      p.double_down i = .error (e, p') → p' = p) ∧
    (∀ (p : Player) (i : Nat) (e : ErrKind) (p' : Player),
      p.surrender_hand i = .error (e, p') → p' = p) ∧
    (∀ (st : EngineState) (a : Action) (i : Nat) (e : ErrKind)
      (st' : EngineState),
      st.execute_action a i = .error (e, st') → e ≠ .shoeEmpty → st' = st) := by
  refine ⟨fun p bet e p' h => (new_hand_error h).2,
    fun p i e p' h => split_hand_error h,
    fun p i e p' h => double_down_error h,
    fun p i e p' h => surrender_hand_error h, ?_⟩
  intro st a i e st' h hne
  unfold EngineState.execute_action at h
  split at h
  · simp only [Except.error.injEq, Prod.mk.injEq] at h
    exact h.2.symm
  · split at h
    -- HIT
    · split at h
      · simp only [Except.error.injEq, Prod.mk.injEq] at h
        exact h.2.symm
      · split at h
        · rename_i es hd
          rcases es with ⟨e0, st0⟩
          simp only [Except.error.injEq, Prod.mk.injEq] at h
          obtain ⟨he0, -⟩ := deal_card_error hd
          exact absurd (h.1 ▸ he0 : e = .shoeEmpty) hne
        · exact absurd h (by simp)
    -- STAND
    · split at h
      · simp only [Except.error.injEq, Prod.mk.injEq] at h
        exact h.2.symm
      · exact absurd h (by simp)
    -- DOUBLE
    · split at h
      · simp only [Except.error.injEq, Prod.mk.injEq] at h
        exact h.2.symm
      · split at h
        · rename_i e0 p0 hdd
          simp only [Except.error.injEq, Prod.mk.injEq] at h
          have hp0 : p0 = st.player := double_down_error hdd
          rw [← h.2, hp0, engine_set_player_self]
        · split at h
          · rename_i es hd
            rcases es with ⟨e0, st0⟩
            simp only [Except.error.injEq, Prod.mk.injEq] at h
            obtain ⟨he0, -⟩ := deal_card_error hd
            exact absurd (h.1 ▸ he0 : e = .shoeEmpty) hne
          · exact absurd h (by simp)
    -- SPLIT
    · split at h
      · simp only [Except.error.injEq, Prod.mk.injEq] at h
        exact h.2.symm
      · split at h
        · rename_i e0 p0 hsp
          simp only [Except.error.injEq, Prod.mk.injEq] at h
          have hp0 : p0 = st.player := split_hand_error hsp
          rw [← h.2, hp0, engine_set_player_self]
        · split at h
          · rename_i es hd
            rcases es with ⟨e0, st0⟩
            simp only [Except.error.injEq, Prod.mk.injEq] at h
            obtain ⟨he0, -⟩ := deal_card_error hd
            exact absurd (h.1 ▸ he0 : e = .shoeEmpty) hne
          · split at h
            · rename_i es hd2
              rcases es with ⟨e0, st0⟩
              simp only [Except.error.injEq, Prod.mk.injEq] at h
              obtain ⟨he0, -⟩ := deal_card_error hd2
              exact absurd (h.1 ▸ he0 : e = .shoeEmpty) hne
            · exact absurd h (by simp)
    -- SURRENDER
    · split at h
      · simp only [Except.error.injEq, Prod.mk.injEq] at h
        exact h.2.symm
      · split at h
        · rename_i e0 p0 hsu
          simp only [Except.error.injEq, Prod.mk.injEq] at h
          have hp0 : p0 = st.player := surrender_hand_error hsu
          rw [← h.2, hp0, engine_set_player_self]
        · exact absurd h (by simp)

/-- A concrete state whose only hand has already stood, used to witness
atomic failure handling. -/
def stStood : EngineState :=
  { shoe := ⟨13/20, [kingH], 4⟩,
    player := ⟨990, [{ mkHand [tenC, nineD] 10 with status := .stood }], 10, 3, 0⟩,
    dealer := ⟨mkHand [sixD, fiveH] 0, .h17, false⟩,
    exposed := [tenC, sixD, nineD], blackjack_payout := 3/2,
    round_in_progress := true }

/-- Witness for C4: a HIT on a stood hand fails and the state carried by
the error is exactly the input state; a bet above the bankroll makes
`new_hand` fail with the player untouched. -/
theorem c4_no_mutation_on_failure_witness :
    stStood = stStood ∧ (Player.mk 5 [] 10 3 0) = (Player.mk 5 [] 10 3 0) :=
  ⟨c4_no_mutation_on_failure.2.2.2.2 stStood .hit 0 .illegalAction stStood rfl
      (by decide),
   c4_no_mutation_on_failure.1 (Player.mk 5 [] 10 3 0) (some 10)
      .insufficientFunds (Player.mk 5 [] 10 3 0) rfl⟩

/-! ## Success characterizations of the mutating steps (shared) -/

theorem hands_get_set_self {l : List Hand} {i : Nat} (h : i < l.length)
    (x : Hand) : (l.set i x).get? i = some x := by
  induction l generalizing i with
  | nil => simp at h
  | cons a t ih =>
    cases i with
    | zero => simp
    | succ i => simpa using ih (by simpa using h)

/-- What a successful `Player.double_down` does. -/
theorem double_down_ok {p : Player} {i : Nat} {p0 : Player}
    (h : p.double_down i = .ok p0) :
    ∃ hand, p.hands.get? i = some hand ∧ hand.can_double = true ∧
      p0 = { p with bankroll := p.bankroll - hand.bet,
                    hands := p.hands.set i
                      ({ hand with bet := hand.bet * 2 }).double_down } := by
  unfold Player.double_down at h
  split at h
  · exact absurd h (by simp)
  · rename_i hand hget
    split at h
    · exact absurd h (by simp)
    · split at h
      · exact absurd h (by simp)
      · rename_i hcd hfunds
        simp only [Except.ok.injEq] at h
        refine ⟨hand, hget, ?_, h.symm⟩
        simpa using hcd

/-- What a successful `_deal_card` to player hand `i` does. -/
theorem deal_card_ok {st : EngineState} {i : Nat} {c : Card}
    {st' : EngineState} (h : st.deal_card i = .ok (c, st')) :
    st.shoe.deal = .ok (c, st'.shoe) ∧ st'.dealer = st.dealer ∧
      st'.exposed = st.exposed ++ [c] ∧
      st'.blackjack_payout = st.blackjack_payout ∧
      st'.round_in_progress = st.round_in_progress ∧
      st'.player.bankroll = st.player.bankroll ∧
      ((st.player.hands.get? i = none ∧ st'.player = st.player) ∨
        (∃ h0, st.player.hands.get? i = some h0 ∧
          st'.player = { st.player with
            hands := st.player.hands.set i (h0.add_card c) })) := by
  unfold EngineState.deal_card at h
  split at h
  · exact absurd h (by simp)
  · rename_i card shoe1 hd
    split at h
    · rename_i hget
      simp only [Except.ok.injEq, Prod.mk.injEq] at h
      obtain ⟨hc, hst⟩ := h
      subst hc
      rw [← hst]
      exact ⟨hd, rfl, rfl, rfl, rfl, rfl, .inl ⟨hget, rfl⟩⟩
    · rename_i h0 hget
      simp only [Except.ok.injEq, Prod.mk.injEq] at h
      obtain ⟨hc, hst⟩ := h
      subst hc
      rw [← hst]
      exact ⟨hd, rfl, rfl, rfl, rfl, rfl, .inr ⟨h0, hget, rfl⟩⟩

theorem set_hand_status_of_get {st : EngineState} {i : Nat} {h0 : Hand}
    (hget : st.player.hands.get? i = some h0) (s : HandStatus) :
    st.set_hand_status i s =
      { st with player := { st.player with
          hands := st.player.hands.set i { h0 with status := s } } } := by
  unfold EngineState.set_hand_status
  rw [hget]

/-- The one-card-dealt shape of the hand after `Hand.add_card`,
whatever the bust check decides, once the status is overwritten. -/
theorem add_card_status_override (h : Hand) (c : Card) (s : HandStatus) :
    { h.add_card c with status := s } =
      Hand.mk (h.cards ++ [c]) s h.bet h.is_split_hand h.is_doubled := by
  unfold Hand.add_card
  dsimp only
  split <;> rfl

/-- What a successful DOUBLE through `execute_action` does to hand `i`:
the bet is doubled, exactly one card is appended, and the status ends
STOOD regardless of the dealt card. -/
theorem execute_double_ok {st : EngineState} {i : Nat} {c : Card}
    {st' : EngineState} (h : st.execute_action .double i = .ok (some c, st')) :
    ∃ hand, st.player.hands.get? i = some hand ∧ hand.can_double = true ∧
      st'.player.hands.get? i =
        some (Hand.mk (hand.cards ++ [c]) .stood (hand.bet * 2)
          hand.is_split_hand true) ∧
      st'.player.bankroll = st.player.bankroll - hand.bet ∧
      st'.dealer = st.dealer ∧ st'.exposed = st.exposed ++ [c] := by
  unfold EngineState.execute_action at h
  split at h
  · exact absurd h (by simp)
  · rename_i hand hget
    split at h
    · rename_i heq; simp at heq
    · rename_i heq; simp at heq
    · split at h
      · exact absurd h (by simp)
      · split at h
        · exact absurd h (by simp)
        · rename_i p0 hdd
          split at h
          · exact absurd h (by simp)
          · rename_i c0 st₂ hd
            simp only [Except.ok.injEq, Prod.mk.injEq, Option.some.injEq] at h
            obtain ⟨hc, hst⟩ := h
            subst hc
            obtain ⟨hand0, hget0, hcd0, hp0⟩ := double_down_ok hdd
            rw [hget] at hget0
            obtain rfl : hand = hand0 := by
              simpa using hget0
            have hilen : i < st.player.hands.length :=
              (List.get?_eq_some.mp hget).1
            obtain ⟨hdeal, hdealer, hexp, -, -, hbank, hpl⟩ := deal_card_ok hd
            subst hp0
            rcases hpl with ⟨hnone, -⟩ | ⟨h1, hget1, hpl⟩
            · rw [hands_get_set_self (by simpa using hilen)] at hnone
              exact absurd hnone (by simp)
            · rw [hands_get_set_self (by simpa using hilen)] at hget1
              have hh1 : h1 = ({ hand with bet := hand.bet * 2 }).double_down := by
                simpa using hget1.symm
              subst hh1
              have hget2 : st₂.player.hands.get? i =
                  some ((({ hand with bet := hand.bet * 2 }).double_down).add_card c0) := by
                rw [hpl]
                exact hands_get_set_self (by simpa using hilen) _
              rw [← hst]
              rw [set_hand_status_of_get hget2 .stood]
              have hlen2 : i < st₂.player.hands.length := by
                rw [hpl]
                simpa using hilen
              refine ⟨hand, hget, hcd0, ?_, hbank, hdealer, hexp⟩
              show (st₂.player.hands.set i _).get? i = _
              rw [hands_get_set_self (by simpa using hlen2)]
              rw [add_card_status_override]
              rfl
    · rename_i heq; simp at heq
    · rename_i heq; simp at heq

/-! ## Status monotonicity (C2) and the double-bust scoring path (C10) -/

/-- A round state about to DOUBLE: one ACTIVE two-card hand of 16
against a single ten-value card left on top of the shoe. -/
def stDouble : EngineState :=
  { shoe := ⟨13/20, [kingH], 4⟩,
    player := ⟨990, [mkHand [tenC, sixD] 10], 10, 3, 0⟩,
    dealer := ⟨mkHand [nineD, fiveH] 0, .h17, false⟩,
    exposed := [], blackjack_payout := 3/2, round_in_progress := true }

/-- The player state immediately after `Player.double_down` inside the
DOUBLE flow: the hand is already DOUBLED (non-ACTIVE) and has not yet
received its card. -/
def pDoubleMid : Player :=
  ⟨(990:ℚ) - 10, [Hand.mk [tenC, sixD] .doubled ((10:ℚ) * 2) false true],
    10, 3, 0⟩

/-- The engine state after the full DOUBLE action from `stDouble`: the
dealt King busts the 16, and the engine overwrites the automatic BUSTED
status with STOOD. -/
def stDoubleFin : EngineState :=
  { shoe := ⟨13/20, [], 5⟩,
    player := ⟨(990:ℚ) - 10,
      [Hand.mk [tenC, sixD, kingH] .stood ((10:ℚ) * 2) false true], 10, 3, 0⟩,
    dealer := ⟨mkHand [nineD, fiveH] 0, .h17, false⟩,
    exposed := [kingH], blackjack_payout := 3/2, round_in_progress := true }

/-- Counterexample to C2: inside the engine's double-down flow the hand
is first set to DOUBLED — a non-ACTIVE status — and then still receives
one more card (2 cards grow to 3) and undergoes two further status
changes (DOUBLED to BUSTED by add_card's bust detection, then BUSTED to
STOOD by the engine's overwrite).  The final STOOD overwrite of a
non-ACTIVE status is not BUSTED detection, so the stated invariant
fails under double-down. -/
theorem c2_counterexample :
    stDouble.player.double_down 0 = .ok pDoubleMid ∧
    (pDoubleMid.hands.get? 0).map Hand.status = some .doubled ∧
    HandStatus.doubled ≠ HandStatus.active ∧
    stDouble.execute_action .double 0 = .ok (some kingH, stDoubleFin) ∧
    (stDoubleFin.player.hands.get? 0).map (fun h => h.cards.length) = some 3 ∧
    (stDoubleFin.player.hands.get? 0).map Hand.status = some .stood ∧
    HandStatus.stood ≠ HandStatus.doubled ∧
    HandStatus.stood ≠ HandStatus.busted :=
  ⟨rfl, rfl, by decide, rfl, rfl, rfl, by decide, by decide⟩

/-- Claim C2 as amended: at the `execute_action` boundary the invariant
holds — once a hand's status is not ACTIVE, every action on it is
rejected with an illegal-action error and no state change, and
`add_card` only ever changes a status to BUSTED (automatically, when
the new total exceeds 21) — but inside the double-down flow itself the
hand is first marked DOUBLED, then (already non-ACTIVE) receives
exactly one card, and its status is finally overwritten to STOOD even
if the card busted the hand. -/
theorem c2_amended_status_monotonic :
    (∀ (st : EngineState) (i : Nat) (a : Action) (h0 : Hand),
      st.player.hands.get? i = some h0 → h0.status ≠ .active →
      st.execute_action a i = .error (.illegalAction, st)) ∧
    (∀ (h0 : Hand) (c : Card),
      (h0.add_card c).cards = h0.cards ++ [c] ∧
      (h0.add_card c).bet = h0.bet ∧
      ((h0.add_card c).value ≤ 21 → (h0.add_card c).status = h0.status) ∧
      (21 < (h0.add_card c).value → (h0.add_card c).status = .busted)) ∧
    (∀ (st : EngineState) (i : Nat) (c : Card) (st' : EngineState),
      st.execute_action .double i = .ok (some c, st') →
      ∃ hand, st.player.hands.get? i = some hand ∧
        st'.player.hands.get? i =
          some (Hand.mk (hand.cards ++ [c]) .stood (hand.bet * 2)
            hand.is_split_hand true)) := by
  refine ⟨?_, ?_, ?_⟩
  · intro st i a h0 hget hstat
    have hb : decide (h0.status = HandStatus.active) = false := by
      simp [hstat]
    have hget2 : st.player.hands[i]? = some h0 := by
      rw [← List.get?_eq_getElem?]
      exact hget
    cases a <;>
      simp [EngineState.execute_action, hget2, Hand.can_hit, Hand.can_stand,
        Hand.can_double, Hand.can_split, Hand.can_surrender, hb, hstat]
  · intro h0 c
    unfold Hand.add_card Hand.value Hand.rawTotal Hand.aceCount
    dsimp only
    split <;> rename_i hv
    · refine ⟨rfl, rfl, ?_, fun _ => rfl⟩
      intro hle
      simp only [Hand.value, Hand.rawTotal, Hand.aceCount] at hle hv
      omega
    · refine ⟨rfl, rfl, fun _ => rfl, ?_⟩
      intro hgt
      simp only [Hand.value, Hand.rawTotal, Hand.aceCount] at hgt hv
      omega
  · intro st i c st' h
    obtain ⟨hand, hget, -, hfin, -⟩ := execute_double_ok h
    exact ⟨hand, hget, hfin⟩

/-- Witness for C2's amended claim: HIT on a stood hand is rejected
without mutation, and the complete DOUBLE on the concrete state
appends one card and ends STOOD. -/
theorem c2_amended_status_monotonic_witness :
    stStood.execute_action .hit 0 = .error (.illegalAction, stStood) ∧
    ∃ hand, stDouble.player.hands.get? 0 = some hand ∧
      stDoubleFin.player.hands.get? 0 =
        some (Hand.mk (hand.cards ++ [kingH]) .stood (hand.bet * 2)
          hand.is_split_hand true) :=
  ⟨c2_amended_status_monotonic.1 stStood 0 .hit
      ({ mkHand [tenC, nineD] 10 with status := .stood }) rfl (by decide),
   c2_amended_status_monotonic.2.2 stDouble 0 kingH stDoubleFin rfl⟩

/-- Entry `i` of `resolve_round`'s summary depends only on hand `i` and
the dealer's final hand. -/
theorem resolve_round_get (st : EngineState) (i : Nat) :
    (st.resolve_round).1.player_hands.get? i =
      (st.player.hands.get? i).map
        (fun h => (resolveHand st.dealer.hand.value st.dealer.hand.is_busted h).1) := by
  unfold EngineState.resolve_round mk_summary
  simp only [List.get?_map, Option.map_map]
  rfl

/-- Claim C10: when the single card dealt by DOUBLE busts the hand, the
hand is left with status STOOD (the engine overwrites the automatic
BUSTED) while its value exceeds 21; `resolve_round` nevertheless scores
it LOSE with payout minus the doubled bet, because resolution tests
`is_busted` (a value computation), not the status. -/
theorem c10_double_bust_scored_lose (st : EngineState) (i : Nat) (c : Card)
    (st' : EngineState) (h' : Hand) :
    st.execute_action .double i = .ok (some c, st') →
    st'.player.hands.get? i = some h' →
    21 < h'.value →
    h'.status = .stood ∧
      (st'.resolve_round).1.player_hands.get? i =
        some ⟨h', .lose, -h'.bet⟩ ∧
      ∃ hand, st.player.hands.get? i = some hand ∧ h'.bet = hand.bet * 2 := by
  intro hex hget hbust
  obtain ⟨hand, hget0, -, hfin, -⟩ := execute_double_ok hex
  rw [hget] at hfin
  have hh' : h' = Hand.mk (hand.cards ++ [c]) .stood (hand.bet * 2)
      hand.is_split_hand true := by
    simpa using hfin
  refine ⟨by rw [hh'], ?_, hand, hget0, by rw [hh']⟩
  rw [resolve_round_get, hget]
  simp only [Option.map_some']
  unfold resolveHand
  rw [if_neg (by rw [hh']; simp)]
  rw [if_pos (by simp [Hand.is_busted, hbust])]

/-- Witness for C10 at the concrete double-bust state: the 26-valued
hand ends STOOD and is resolved as a LOSE of the doubled bet. -/
theorem c10_double_bust_scored_lose_witness :
    (Hand.mk [tenC, sixD, kingH] .stood ((10:ℚ) * 2) false true).status = .stood ∧
      (stDoubleFin.resolve_round).1.player_hands.get? 0 =
        some ⟨Hand.mk [tenC, sixD, kingH] .stood ((10:ℚ) * 2) false true, .lose,
          -(Hand.mk [tenC, sixD, kingH] .stood ((10:ℚ) * 2) false true).bet⟩ ∧
      ∃ hand, stDouble.player.hands.get? 0 = some hand ∧
        (Hand.mk [tenC, sixD, kingH] .stood ((10:ℚ) * 2) false true).bet =
          hand.bet * 2 :=
  c10_double_bust_scored_lose stDouble 0 kingH stDoubleFin
    (Hand.mk [tenC, sixD, kingH] .stood ((10:ℚ) * 2) false true)
    rfl rfl (by decide)

/-! ## Early blackjack resolution (C3) -/

/-- Claim C3: `check_early_blackjack` resolves early only under the
peek condition (player natural blackjack, or dealer upcard Ace or
ten-value); dealer blackjack resolves as a push crediting the full bet
when the player also holds blackjack and otherwise as a loss of the
full bet with no credit; player-only blackjack resolves with result
BLACKJACK, summary payout bet times the payout ratio, and a credit of
bet plus that payout; in every other case it returns no resolution and
leaves the state (bankroll included) unchanged. -/
theorem c3_check_early_blackjack (st : EngineState) (ph : Hand) (up hc : Card)
    (hget : st.player.hands.get? 0 = some ph)
    (hcards : st.dealer.hand.cards = [up, hc]) :
    (ph.is_blackjack = false → (up.is_ace || up.is_ten_value) = false →
      st.check_early_blackjack = .ok (none, st)) ∧
    (st.dealer.hand.is_blackjack = true → ph.is_blackjack = true →
      st.check_early_blackjack =
        .ok (some (mk_summary [⟨ph, .push, 0⟩] st.dealer.hand),
          { st with
              dealer := { st.dealer with hole_card_revealed := true },
              exposed := st.exposed ++ [hc],
              player := { st.player with
                bankroll := st.player.bankroll + ph.bet } }) ∧
      (mk_summary [⟨ph, .push, 0⟩] st.dealer.hand).total_payout = 0) ∧
    ((up.is_ace || up.is_ten_value) = true →
      st.dealer.hand.is_blackjack = true → ph.is_blackjack = false →
      st.check_early_blackjack =
        .ok (some (mk_summary [⟨ph, .lose, -ph.bet⟩] st.dealer.hand),
          { st with
              dealer := { st.dealer with hole_card_revealed := true },
              exposed := st.exposed ++ [hc] }) ∧
      (mk_summary [⟨ph, .lose, -ph.bet⟩] st.dealer.hand).total_payout =
        -ph.bet) ∧
    (ph.is_blackjack = true → st.dealer.hand.is_blackjack = false →
      st.check_early_blackjack =
        .ok (some (mk_summary
            [⟨ph, .blackjack, ph.bet * st.blackjack_payout⟩] st.dealer.hand),
          { st with
              player := { st.player with
                bankroll := st.player.bankroll +
                  (ph.bet + ph.bet * st.blackjack_payout) },
              dealer := { st.dealer with hole_card_revealed := true },
              exposed := st.exposed ++ [hc] }) ∧
      (mk_summary [⟨ph, .blackjack, ph.bet * st.blackjack_payout⟩]
          st.dealer.hand).total_payout = ph.bet * st.blackjack_payout) ∧
    ((up.is_ace || up.is_ten_value) = true →
      st.dealer.hand.is_blackjack = false → ph.is_blackjack = false →
      st.check_early_blackjack = .ok (none, st)) := by
  have hup : st.dealer.upcard = some up := by
    unfold Dealer.upcard Hand.upcard
    rw [hcards]
    rfl
  have hhole : st.dealer.hole_card = some hc := by
    unfold Dealer.hole_card Hand.hole_card
    rw [hcards]
    rfl
  refine ⟨?_, ?_, ?_, ?_, ?_⟩
  · intro hpb hdm
    simp only [EngineState.check_early_blackjack, hget, hup, hpb, hdm,
      Bool.or_self, Bool.false_eq_true, if_false]
  · intro hdbj hpbj
    refine ⟨?_, by simp [mk_summary]⟩
    simp only [EngineState.check_early_blackjack, hget, hup, hpbj, hdbj,
      Bool.true_or, if_true, EngineState.reveal_hole,
      Dealer.reveal_hole_card, hhole, Player.receive_payout]
  · intro hdm hdbj hpbj
    refine ⟨?_, by simp [mk_summary]⟩
    simp only [EngineState.check_early_blackjack, hget, hup, hpbj, hdm, hdbj,
      Bool.false_or, if_true, Bool.false_eq_true, if_false,
      EngineState.reveal_hole, Dealer.reveal_hole_card, hhole]
  · intro hpbj hdbj
    refine ⟨?_, by simp [mk_summary]⟩
    simp only [EngineState.check_early_blackjack, hget, hup, hpbj, hdbj,
      Bool.true_or, if_true, Bool.false_eq_true, if_false,
      EngineState.reveal_hole, Dealer.reveal_hole_card, hhole,
      Player.receive_payout]
  · intro hdm hdbj hpbj
    simp only [EngineState.check_early_blackjack, hget, hup, hpbj, hdm, hdbj,
      Bool.false_or, if_true, Bool.false_eq_true, if_false]

/-- Scenario B state: player A♠+K♦ (natural), dealer upcard 10♣ with
hole card 5♥, bet 10, 3:2 payout. -/
def stScenB : EngineState :=
  { shoe := ⟨13/20, [], 4⟩,
    player := ⟨990, [mkHand [aceS, kingD] 10], 10, 3, 0⟩,
    dealer := ⟨mkHand [tenC, fiveH] 0, .h17, false⟩,
    exposed := [aceS, tenC, kingD], blackjack_payout := 3/2,
    round_in_progress := true }

/-- Witness for C3: scenario B — early resolution fires with result
BLACKJACK, summary payout bet times ratio, and the bankroll credit is
bet plus payout (990 becomes 1015: net +15 on a bet of 10 at 3:2). -/
theorem c3_check_early_blackjack_witness :
    (stScenB.check_early_blackjack =
      .ok (some (mk_summary
          [⟨mkHand [aceS, kingD] 10, .blackjack,
            (mkHand [aceS, kingD] 10).bet * stScenB.blackjack_payout⟩]
          stScenB.dealer.hand),
        { stScenB with
            player := { stScenB.player with
              bankroll := stScenB.player.bankroll +
                ((mkHand [aceS, kingD] 10).bet +
                  (mkHand [aceS, kingD] 10).bet * stScenB.blackjack_payout) },
            dealer := { stScenB.dealer with hole_card_revealed := true },
            exposed := stScenB.exposed ++ [fiveH] }) ∧
      (mk_summary
          [⟨mkHand [aceS, kingD] 10, .blackjack,
            (mkHand [aceS, kingD] 10).bet * stScenB.blackjack_payout⟩]
          stScenB.dealer.hand).total_payout =
        (mkHand [aceS, kingD] 10).bet * stScenB.blackjack_payout) ∧
    (990:ℚ) + (10 + 10 * (3/2)) = 1015 ∧ (10:ℚ) * (3/2) = 15 :=
  ⟨(c3_check_early_blackjack stScenB (mkHand [aceS, kingD] 10) tenC fiveH
      rfl rfl).2.2.2.1 (by decide) (by decide),
   by norm_num, by norm_num⟩

/-! ## Hole-card exposure timing (C1): helper lemmas -/

theorem deal_mem {s s' : Shoe} {c : Card} (h : s.deal = .ok (c, s')) :
    c ∈ s.cards := by
  obtain ⟨hc, -, -⟩ := Shoe.deal_ok_decomp h
  rw [hc]
  simp

theorem deal_subset {s s' : Shoe} {c : Card} (h : s.deal = .ok (c, s')) :
    s'.cards ⊆ s.cards := by
  obtain ⟨hc, -, -⟩ := Shoe.deal_ok_decomp h
  rw [hc]
  exact List.subset_append_left _ _

theorem deal_nodup {s s' : Shoe} {c : Card} (h : s.deal = .ok (c, s'))
    (hn : s.cards.Nodup) : s'.cards.Nodup := by
  obtain ⟨hc, -, -⟩ := Shoe.deal_ok_decomp h
  rw [hc] at hn
  exact (List.nodup_append.mp hn).1

theorem deal_not_mem {s s' : Shoe} {c : Card} (h : s.deal = .ok (c, s'))
    (hn : s.cards.Nodup) : c ∉ s'.cards := by
  obtain ⟨hc, -, -⟩ := Shoe.deal_ok_decomp h
  rw [hc] at hn
  intro hmem
  obtain ⟨-, -, hdisj⟩ := List.nodup_append.mp hn
  exact hdisj hmem (by simp)

/-- What a successful `_deal_to_dealer` does. -/
theorem deal_to_dealer_ok {st : EngineState} {face_up : Bool} {c : Card}
    {st' : EngineState} (h : st.deal_to_dealer face_up = .ok (c, st')) :
    st.shoe.deal = .ok (c, st'.shoe) ∧ st'.player = st.player ∧
      st'.dealer = st.dealer.receive_card c ∧
      st'.exposed = st.exposed ++ (if face_up then [c] else []) ∧
      st'.blackjack_payout = st.blackjack_payout := by
  unfold EngineState.deal_to_dealer at h
  split at h
  · exact absurd h (by simp)
  · rename_i card shoe1 hd
    cases hf : face_up <;> rw [hf] at h <;>
      simp only [if_true, if_false, Bool.false_eq_true, Except.ok.injEq,
        Prod.mk.injEq] at h <;>
      obtain ⟨hc, hst⟩ := h <;> subst hc <;> rw [← hst] <;>
      simp [hd]

/-- Revealing the hole card: explicit form when the hole card exists. -/
theorem reveal_hole_snd {st : EngineState} {hc : Card}
    (hhole : st.dealer.hole_card = some hc) :
    st.reveal_hole.2 =
      { st with dealer := { st.dealer with hole_card_revealed := true },
                exposed := st.exposed ++ [hc] } := by
  simp [EngineState.reveal_hole, Dealer.reveal_hole_card, hhole]

/-- `check_early_blackjack` returning no resolution leaves the state
untouched (in particular nothing is exposed and the reveal flag keeps
its value). -/
theorem check_early_none {st st' : EngineState}
    (h : st.check_early_blackjack = .ok (none, st')) : st' = st := by
  unfold EngineState.check_early_blackjack at h
  split at h
  · exact absurd h (by simp)
  · rename_i ph hget
    split at h
    · exact absurd h (by simp)
    · rename_i up hup
      by_cases hpb : ph.is_blackjack = true <;>
        by_cases hdm : (up.is_ace || up.is_ten_value) = true <;>
        by_cases hdbj : st.dealer.hand.is_blackjack = true <;>
        simp only [hpb, hdm, hdbj, Bool.not_eq_true] at h <;>
        simp only [Bool.true_or, Bool.or_true, Bool.false_or, Bool.or_false,
          Bool.or_self, if_true, if_false, Bool.false_eq_true] at h <;>
        simp only [Except.ok.injEq, Prod.mk.injEq] at h <;>
        try exact (Option.some_ne_none _ h.1).elim
      all_goals
        exact h.2.symm

/-- Exposure and flag effect of a reveal when the hole card exists. -/
theorem reveal_hole_exposed_flag (st0 : EngineState) {hc : Card}
    (hhole : st0.dealer.hole_card = some hc) :
    (st0.reveal_hole).2.exposed = st0.exposed ++ [hc] ∧
      (st0.reveal_hole).2.dealer.hole_card_revealed = true := by
  simp [EngineState.reveal_hole, Dealer.reveal_hole_card, hhole]

/-- `check_early_blackjack` resolving early exposes exactly the hole
card and sets the reveal flag. -/
theorem check_early_some {st st' : EngineState} {summ : RoundSummary}
    {hc : Card} (hhole : st.dealer.hole_card = some hc)
    (h : st.check_early_blackjack = .ok (some summ, st')) :
    st'.exposed = st.exposed ++ [hc] ∧
      st'.dealer.hole_card_revealed = true := by
  unfold EngineState.check_early_blackjack at h
  split at h
  · exact absurd h (by simp)
  · rename_i ph hget
    split at h
    · exact absurd h (by simp)
    · rename_i up hup
      by_cases hpb : ph.is_blackjack = true <;>
        by_cases hdm : (up.is_ace || up.is_ten_value) = true <;>
        by_cases hdbj : st.dealer.hand.is_blackjack = true <;>
        simp only [hpb, hdm, hdbj, Bool.not_eq_true] at h <;>
        simp only [Bool.true_or, Bool.or_true, Bool.false_or, Bool.or_false,
          Bool.or_self, if_true, if_false, Bool.false_eq_true] at h <;>
        simp only [Except.ok.injEq, Prod.mk.injEq] at h <;>
        try exact (Option.some_ne_none _ h.1.symm).elim
      all_goals
        rw [← h.2]
      all_goals
        exact ⟨(reveal_hole_exposed_flag _ (by exact hhole)).1,
          (reveal_hole_exposed_flag _ (by exact hhole)).2⟩

/-- The dealer hit loop only appends exposures. -/
theorem dealer_loop_exposed_mono :
    ∀ (fuel : Nat) (st st' : EngineState),
      EngineState.dealer_loop fuel st = .ok st' →
      ∃ rest, st'.exposed = st.exposed ++ rest := by
  intro fuel
  induction fuel with
  | zero =>
    intro st st' h
    simp only [EngineState.dealer_loop, Except.ok.injEq] at h
    exact ⟨[], by simp [← h]⟩
  | succ fuel ih =>
    intro st st' h
    unfold EngineState.dealer_loop at h
    split at h
    · split at h
      · exact absurd h (by simp)
      · rename_i card shoe1 hd
        obtain ⟨rest, hrest⟩ := ih _ _ h
        exact ⟨card :: rest, by simpa using hrest⟩
    · simp only [Except.ok.injEq] at h
      exact ⟨[], by simp [← h]⟩

/-- The dealer hit loop never changes the reveal flag. -/
theorem dealer_loop_flag :
    ∀ (fuel : Nat) (st st' : EngineState),
      EngineState.dealer_loop fuel st = .ok st' →
      st'.dealer.hole_card_revealed = st.dealer.hole_card_revealed := by
  intro fuel
  induction fuel with
  | zero =>
    intro st st' h
    simp only [EngineState.dealer_loop, Except.ok.injEq] at h
    rw [← h]
  | succ fuel ih =>
    intro st st' h
    unfold EngineState.dealer_loop at h
    split at h
    · split at h
      · exact absurd h (by simp)
      · rename_i card shoe1 hd
        have hstep := ih _ _ h
        exact hstep
    · simp only [Except.ok.injEq] at h
      rw [← h]

/-- Under a present hole card, the opening of `play_dealer` is exactly
one reveal: flag set, hole card appended to the exposure trace. -/
theorem play_dealer_pre_of_hole {st : EngineState} {hc : Card}
    (hhole : st.dealer.hole_card = some hc) :
    st.play_dealer_pre =
      { st with dealer := { st.dealer with hole_card_revealed := true },
                exposed := st.exposed ++ [hc] } := by
  unfold EngineState.play_dealer_pre
  rw [reveal_hole_snd hhole]
  rfl

theorem dealer_final_flag (d : Dealer) :
    (dealer_final d).hole_card_revealed = d.hole_card_revealed := by
  unfold dealer_final
  split <;> rfl

/-- `play_dealer` reveals first: when a hole card is present, it is the
first card exposed during dealer play, before any hit card, and the
reveal flag ends true. -/
theorem play_dealer_exposes_hole_first {st st' : EngineState} {hc : Card}
    (hhole : st.dealer.hole_card = some hc)
    (h : st.play_dealer = .ok st') :
    st'.dealer.hole_card_revealed = true ∧
      ∃ rest, st'.exposed = st.exposed ++ hc :: rest := by
  unfold EngineState.play_dealer at h
  rw [play_dealer_pre_of_hole hhole] at h
  split at h
  · exact absurd h (by simp)
  · rename_i st₃ hloop
    obtain ⟨rest, hrest⟩ := dealer_loop_exposed_mono _ _ _ hloop
    have hflag3 := dealer_loop_flag _ _ _ hloop
    simp only [Except.ok.injEq] at h
    constructor
    · rw [← h]
      show (dealer_final st₃.dealer).hole_card_revealed = true
      rw [dealer_final_flag]
      simpa using hflag3
    · refine ⟨rest, ?_⟩
      rw [← h]
      show st₃.exposed = _
      rw [hrest]
      simp

theorem add_card_cards (h : Hand) (c : Card) :
    (h.add_card c).cards = h.cards ++ [c] := by
  unfold Hand.add_card
  dsimp only
  split <;> rfl

theorem set_hand_status_preserves (st : EngineState) (i : Nat)
    (s : HandStatus) :
    (st.set_hand_status i s).exposed = st.exposed ∧
      (st.set_hand_status i s).dealer = st.dealer ∧
      (st.set_hand_status i s).shoe = st.shoe := by
  unfold EngineState.set_hand_status
  split <;> exact ⟨rfl, rfl, rfl⟩

/-- `burn 1` either finds an empty shoe and does nothing, or deals one
card. -/
theorem burn_one_cases (s : Shoe) :
    (s.cards = [] ∧ s.burn 1 = ([], s)) ∨
      (∃ c s', s.deal = .ok (c, s') ∧ s.burn 1 = ([c], s')) := by
  by_cases he : s.cards.isEmpty
  · exact .inl ⟨by simpa using he, by simp [Shoe.burn, he]⟩
  · obtain ⟨c, s', hd⟩ := Shoe.deal_ok_of_ne_nil (by simpa using he)
    exact .inr ⟨c, s', hd, by simp [Shoe.burn, he, hd]⟩

/-- The shuffle/burn stage of `start_round`: it never touches the
player or dealer, it only appends (at most one burn card) to the
exposure trace, and — when the incoming shoe and the shuffle
permutation are duplicate-free — the resulting shoe is duplicate-free
and no newly exposed burn card remains in it. -/
theorem start_round_shuffle_stage (st : EngineState) (deck : List Card)
    (hnodupS : st.shoe.cards.Nodup) (hnodupD : deck.Nodup) :
    (st.start_round_shuffle deck).player = st.player ∧
      (st.start_round_shuffle deck).dealer = st.dealer ∧
      (st.start_round_shuffle deck).shoe.cards.Nodup ∧
      ∃ new0, (st.start_round_shuffle deck).exposed = st.exposed ++ new0 ∧
        ∀ b ∈ new0, b ∉ (st.start_round_shuffle deck).shoe.cards := by
  unfold EngineState.start_round_shuffle
  by_cases hns : st.shoe.needs_shuffle = true
  · rcases burn_one_cases (st.shoe.shuffle deck) with ⟨hnil, hburn⟩ | ⟨b, s', hd, hburn⟩
    · simp only [hns, if_true, hburn]
      exact ⟨by trivial, by trivial, by simpa [Shoe.shuffle] using hnodupD,
        [], by simp, by simp⟩
    · simp only [hns, if_true, hburn]
      refine ⟨by trivial, by trivial,
        deal_nodup hd (by simpa [Shoe.shuffle] using hnodupD), [b], by simp, ?_⟩
      intro b' hb'
      simp only [List.mem_singleton] at hb'
      subst hb'
      exact deal_not_mem hd (by simpa [Shoe.shuffle] using hnodupD)
  · have hns' : st.shoe.needs_shuffle = false := by simpa using hns
    simp only [hns', Bool.false_eq_true, if_false]
    exact ⟨by trivial, by trivial, hnodupS, [], by simp, by simp⟩

/-- The four initial deals: exactly the first three dealt cards are
exposed; the dealer ends holding upcard and hole card with the reveal
flag still false; and on a duplicate-free shoe the hole card is
distinct from every exposed card and gone from the shoe. -/
theorem start_round_deals_spec {stPre st' : EngineState}
    (hnodup : stPre.shoe.cards.Nodup)
    (hdealer : stPre.dealer.hand = Hand.fresh)
    (hflag : stPre.dealer.hole_card_revealed = false)
    (h : stPre.start_round_deals = .ok st') :
    ∃ c1 c2 c3 c4,
      st'.exposed = stPre.exposed ++ [c1, c2, c3] ∧
      st'.dealer.hand.cards = [c2, c4] ∧
      st'.dealer.hole_card_revealed = false ∧
      c4 ∉ [c1, c2, c3] ∧ c4 ∉ st'.shoe.cards ∧ c4 ∈ stPre.shoe.cards := by
  unfold EngineState.start_round_deals at h
  split at h
  · exact absurd h (by simp)
  · rename_i c1 stA hd1
    split at h
    · exact absurd h (by simp)
    · rename_i c2 stB hd2
      split at h
      · exact absurd h (by simp)
      · rename_i c3 stC hd3
        split at h
        · exact absurd h (by simp)
        · rename_i c4 stD hd4
          simp only [Except.ok.injEq] at h
          obtain ⟨hs1, hdealerA, hexpA, -, -, -, -⟩ := deal_card_ok hd1
          obtain ⟨hs2, hplB, hdealerB, hexpB, -⟩ := deal_to_dealer_ok hd2
          obtain ⟨hs3, hdealerC, hexpC, -, -, -, -⟩ := deal_card_ok hd3
          obtain ⟨hs4, hplD, hdealerD, hexpD, -⟩ := deal_to_dealer_ok hd4
          -- shoe chain
          obtain ⟨hc1, -, -⟩ := Shoe.deal_ok_decomp hs1
          obtain ⟨hc2, -, -⟩ := Shoe.deal_ok_decomp hs2
          obtain ⟨hc3, -, -⟩ := Shoe.deal_ok_decomp hs3
          obtain ⟨hc4, -, -⟩ := Shoe.deal_ok_decomp hs4
          have hnA : stA.shoe.cards.Nodup := deal_nodup hs1 hnodup
          have hnB : stB.shoe.cards.Nodup := deal_nodup hs2 hnA
          have hnC : stC.shoe.cards.Nodup := deal_nodup hs3 hnB
          have hmem4C : c4 ∈ stC.shoe.cards := deal_mem hs4
          have hmem4B : c4 ∈ stB.shoe.cards := deal_subset hs3 hmem4C
          have hmem4A : c4 ∈ stA.shoe.cards := deal_subset hs2 hmem4B
          have hmem4Pre : c4 ∈ stPre.shoe.cards := deal_subset hs1 hmem4A
          have hne1 : c1 ≠ c4 := fun he => deal_not_mem hs1 hnodup (he ▸ hmem4A)
          have hne2 : c2 ≠ c4 := fun he => deal_not_mem hs2 hnA (he ▸ hmem4B)
          have hne3 : c3 ≠ c4 := fun he => deal_not_mem hs3 hnB (he ▸ hmem4C)
          have hnotin4 : c4 ∉ stD.shoe.cards := deal_not_mem hs4 hnC
          refine ⟨c1, c2, c3, c4, ?_, ?_, ?_, ?_, ?_, hmem4Pre⟩
          · rw [← h]
            show stD.exposed = _
            rw [hexpD, hexpC, hexpB, hexpA]
            simp
          · rw [← h]
            show stD.dealer.hand.cards = [c2, c4]
            rw [hdealerD, hdealerC]
            unfold Dealer.receive_card
            rw [add_card_cards]
            rw [hdealerB, hdealerA]
            unfold Dealer.receive_card
            rw [add_card_cards, hdealer]
            rfl
          · rw [← h]
            show stD.dealer.hole_card_revealed = false
            rw [hdealerD]
            show stC.dealer.hole_card_revealed = false
            rw [hdealerC, hdealerB]
            show stA.dealer.hole_card_revealed = false
            rw [hdealerA]
            exact hflag
          · intro hmem
            rcases (by simpa using hmem : c4 = c1 ∨ c4 = c2 ∨ c4 = c3) with
              he | he | he
            · exact hne1 he.symm
            · exact hne2 he.symm
            · exact hne3 he.symm
          · rw [← h]
            exact hnotin4

/-- Every card exposed by a player action comes from the shoe, the
shoe only shrinks, and the dealer (hole card and reveal flag included)
is untouched. -/
theorem execute_action_exposures {st : EngineState} {a : Action} {i : Nat}
    {r : Option Card} {st' : EngineState}
    (h : st.execute_action a i = .ok (r, st')) :
    ∃ new, st'.exposed = st.exposed ++ new ∧ (∀ c ∈ new, c ∈ st.shoe.cards) ∧
      st'.shoe.cards ⊆ st.shoe.cards ∧ st'.dealer = st.dealer := by
  unfold EngineState.execute_action at h
  split at h
  · exact absurd h (by simp)
  · split at h
    -- HIT
    · split at h
      · exact absurd h (by simp)
      · split at h
        · exact absurd h (by simp)
        · rename_i c0 st₂ hd
          simp only [Except.ok.injEq, Prod.mk.injEq] at h
          obtain ⟨-, hst⟩ := h
          subst hst
          obtain ⟨hdeal, hdealer, hexp, -, -, -, -⟩ := deal_card_ok hd
          exact ⟨[c0], hexp, by simpa using deal_mem hdeal,
            deal_subset hdeal, hdealer⟩
    -- STAND
    · split at h
      · exact absurd h (by simp)
      · simp only [Except.ok.injEq, Prod.mk.injEq] at h
        obtain ⟨-, hst⟩ := h
        subst hst
        exact ⟨[], by simp, by simp, fun c hc => hc, rfl⟩
    -- DOUBLE
    · split at h
      · exact absurd h (by simp)
      · split at h
        · exact absurd h (by simp)
        · rename_i p0 hdd
          split at h
          · exact absurd h (by simp)
          · rename_i c0 st₂ hd
            simp only [Except.ok.injEq, Prod.mk.injEq] at h
            obtain ⟨-, hst⟩ := h
            subst hst
            obtain ⟨hdeal, hdealer, hexp, -, -, -, -⟩ := deal_card_ok hd
            obtain ⟨hexpS, hdealerS, hshoeS⟩ :=
              set_hand_status_preserves st₂ i .stood
            refine ⟨[c0], ?_, by simpa using deal_mem hdeal, ?_, ?_⟩
            · rw [hexpS, hexp]
            · rw [hshoeS]
              exact deal_subset hdeal
            · rw [hdealerS, hdealer]
    -- SPLIT
    · split at h
      · exact absurd h (by simp)
      · split at h
        · exact absurd h (by simp)
        · rename_i p0 hsp
          split at h
          · exact absurd h (by simp)
          · rename_i c1 st₂ hd1
            split at h
            · exact absurd h (by simp)
            · rename_i c2 st₃ hd2
              simp only [Except.ok.injEq, Prod.mk.injEq] at h
              obtain ⟨-, hst⟩ := h
              subst hst
              obtain ⟨hdeal1, hdealer1, hexp1, -, -, -, -⟩ := deal_card_ok hd1
              obtain ⟨hdeal2, hdealer2, hexp2, -, -, -, -⟩ := deal_card_ok hd2
              refine ⟨[c1, c2], ?_, ?_, ?_, ?_⟩
              · rw [hexp2, hexp1]
                simp
              · intro c hc
                rcases (by simpa using hc : c = c1 ∨ c = c2) with he | he
                · subst he
                  exact deal_mem hdeal1
                · subst he
                  exact deal_subset hdeal1 (deal_mem hdeal2)
              · exact fun c hc => deal_subset hdeal1 (deal_subset hdeal2 hc)
              · rw [hdealer2, hdealer1]
    -- SURRENDER
    · split at h
      · exact absurd h (by simp)
      · split at h
        · exact absurd h (by simp)
        · rename_i r0 p0 hsu
          simp only [Except.ok.injEq, Prod.mk.injEq] at h
          obtain ⟨-, hst⟩ := h
          subst hst
          exact ⟨[], by simp, by simp, fun c hc => hc, rfl⟩

/-- During `start_round` the hole card is dealt face-down: the reveal
flag ends false, and (for duplicate-free shoe and shuffle permutation)
the hole card is in the dealer's hand but absent from every card newly
passed to the exposure callback and from the remaining shoe. -/
theorem start_round_hole_hidden {st : EngineState} {deck : List Card}
    {bet : Option ℚ} {st' : EngineState}
    (hnodupS : st.shoe.cards.Nodup) (hnodupD : deck.Nodup)
    (h : st.start_round deck bet = .ok st') :
    st'.dealer.hole_card_revealed = false ∧
      ∃ hc new, st'.dealer.hand.hole_card = some hc ∧
        st'.exposed = st.exposed ++ new ∧ hc ∉ new ∧ hc ∉ st'.shoe.cards := by
  unfold EngineState.start_round EngineState.start_round_core at h
  obtain ⟨hpl, hdl, hnodupPre, new0, hexp0, hnew0⟩ :=
    start_round_shuffle_stage st deck hnodupS hnodupD
  split at h
  · exact absurd h (by simp)
  · rename_i r p' hnh
    obtain ⟨c1, c2, c3, c4, hex, hcards, hflag, hnotin3, hnotinShoe, hmemPre⟩ :=
      start_round_deals_spec (by exact hnodupPre) rfl rfl h
    refine ⟨hflag, c4, new0 ++ [c1, c2, c3], ?_, ?_, ?_, hnotinShoe⟩
    · show st'.dealer.hand.cards.get? 1 = some c4
      rw [hcards]
      rfl
    · rw [hex]
      show (st.start_round_shuffle deck).exposed ++ [c1, c2, c3] = _
      rw [hexp0]
      simp
    · simp only [List.mem_append]
      rintro (hin | hin)
      · exact hnew0 c4 hin hmemPre
      · exact hnotin3 hin

/-- Claim C1: the dealer's hole card is never passed to the
`on_card_exposed` callback before `reveal_hole_card` runs.  Part 1:
`start_round` deals it face-down — the reveal flag stays false and the
hole card appears in none of the new exposures nor in the shoe (so no
later shoe deal can expose it).  Part 2: every card a player action
exposes comes from the shoe, and the dealer is untouched.  Part 3: a
non-resolving early-blackjack check changes nothing.  Part 4: an early
resolution exposes exactly the hole card, at its reveal.  Part 5:
`play_dealer` exposes the hole card first, at the reveal that starts
dealer play.  Together: the callback receives the hole card only at
the reveal in `check_early_blackjack`'s early resolution or at the
start of `play_dealer`, never earlier. -/
theorem c1_hole_card_exposure_timing :
    (∀ (st : EngineState) (deck : List Card) (bet : Option ℚ)
      (st' : EngineState),
      st.shoe.cards.Nodup → deck.Nodup →
      st.start_round deck bet = .ok st' →
      st'.dealer.hole_card_revealed = false ∧
        ∃ hc new, st'.dealer.hand.hole_card = some hc ∧
          st'.exposed = st.exposed ++ new ∧ hc ∉ new ∧ hc ∉ st'.shoe.cards) ∧
    (∀ (st : EngineState) (a : Action) (i : Nat) (r : Option Card)
      (st' : EngineState),
      st.execute_action a i = .ok (r, st') →
      ∃ new, st'.exposed = st.exposed ++ new ∧
        (∀ c ∈ new, c ∈ st.shoe.cards) ∧
        st'.shoe.cards ⊆ st.shoe.cards ∧ st'.dealer = st.dealer) ∧
    (∀ (st st' : EngineState),
      st.check_early_blackjack = .ok (none, st') → st' = st) ∧
    (∀ (st st' : EngineState) (summ : RoundSummary) (hc : Card),
      st.dealer.hole_card = some hc →
      st.check_early_blackjack = .ok (some summ, st') →
      st'.exposed = st.exposed ++ [hc] ∧
        st'.dealer.hole_card_revealed = true) ∧
    (∀ (st st' : EngineState) (hc : Card),
      st.dealer.hole_card = some hc → st.play_dealer = .ok st' →
      st'.dealer.hole_card_revealed = true ∧
        ∃ rest, st'.exposed = st.exposed ++ hc :: rest) :=
  ⟨fun _ _ _ _ h1 h2 h3 => start_round_hole_hidden h1 h2 h3,
   fun _ _ _ _ _ h => execute_action_exposures h,
   fun _ _ h => check_early_none h,
   fun _ _ _ _ h1 h2 => check_early_some h1 h2,
   fun _ _ _ h1 h2 => play_dealer_exposes_hole_first h1 h2⟩

def sevenS : Card := ⟨.seven, .spades⟩

/-- A fresh-round state for the C1 witness: five known cards in the
shoe, nothing dealt yet. -/
def stC1 : EngineState :=
  { shoe := ⟨13/20, [eightC, fiveH, sixD, nineD, kingH], 0⟩,
    player := ⟨1000, [], 10, 3, 0⟩,
    dealer := ⟨Hand.fresh, .h17, false⟩,
    exposed := [], blackjack_payout := 3/2, round_in_progress := false }

/-- `stC1` after `start_round`: K♥ and 6♦ to the player (exposed), 9♦
upcard (exposed), 5♥ hole card dealt but NOT exposed. -/
def stC1' : EngineState :=
  { shoe := ⟨13/20, [eightC], 4⟩,
    player := ⟨(1000:ℚ) - 10, [Hand.mk [kingH, sixD] .active 10 false false],
      10, 3, 0⟩,
    dealer := ⟨Hand.mk [nineD, fiveH] .active 0 false false, .h17, false⟩,
    exposed := [kingH, nineD, sixD], blackjack_payout := 3/2,
    round_in_progress := true }

/-- `stC1'` after HIT: the 8♣ is exposed and busts the player hand. -/
def stC1w : EngineState :=
  { shoe := ⟨13/20, [], 5⟩,
    player := ⟨(1000:ℚ) - 10,
      [Hand.mk [kingH, sixD, eightC] .busted 10 false false], 10, 3, 0⟩,
    dealer := ⟨Hand.mk [nineD, fiveH] .active 0 false false, .h17, false⟩,
    exposed := [kingH, nineD, sixD, eightC], blackjack_payout := 3/2,
    round_in_progress := true }

/-- The summary produced by the early resolution of `stScenB`. -/
def summScenB : RoundSummary :=
  mk_summary [⟨mkHand [aceS, kingD] 10, .blackjack, (10:ℚ) * (3/2)⟩]
    (mkHand [tenC, fiveH] 0)

/-- `stScenB` after its early resolution: hole card 5♥ exposed at the
reveal, flag set, payout credited. -/
def stScenBres : EngineState :=
  { shoe := ⟨13/20, [], 4⟩,
    player := ⟨(990:ℚ) + (10 + 10 * (3/2)), [mkHand [aceS, kingD] 10],
      10, 3, 0⟩,
    dealer := ⟨mkHand [tenC, fiveH] 0, .h17, true⟩,
    exposed := [aceS, tenC, kingD, fiveH], blackjack_payout := 3/2,
    round_in_progress := true }

/-- A state entering dealer play for the C1 witness: dealer shows 10♣
with hole card 5♥ (15), one 7♠ left in the shoe. -/
def stC1e : EngineState :=
  { shoe := ⟨13/20, [sevenS], 4⟩,
    player := ⟨990, [Hand.mk [kingH, nineD] .stood 10 false false], 10, 3, 0⟩,
    dealer := ⟨mkHand [tenC, fiveH] 0, .h17, false⟩,
    exposed := [kingH, tenC, nineD], blackjack_payout := 3/2,
    round_in_progress := true }

/-- `stC1e` after `play_dealer`: the hole card 5♥ is exposed first
(at the reveal), then the single 7♠ hit — exposed once but, matching
the source's double `receive_card`, added to the dealer's hand twice —
busts the dealer at 29. -/
def stC1e' : EngineState :=
  { shoe := ⟨13/20, [], 5⟩,
    player := ⟨990, [Hand.mk [kingH, nineD] .stood 10 false false], 10, 3, 0⟩,
    dealer := ⟨Hand.mk [tenC, fiveH, sevenS, sevenS] .busted 0 false false,
      .h17, true⟩,
    exposed := [kingH, tenC, nineD, fiveH, sevenS], blackjack_payout := 3/2,
    round_in_progress := true }

/-- Witness for C1: all five parts applied at concrete states — a full
`start_round` hides the 5♥ hole card, a HIT exposes only a shoe card,
a non-resolving peek changes nothing, scenario B's early resolution
exposes exactly the hole card, and dealer play exposes the hole card
first. -/
theorem c1_hole_card_exposure_timing_witness :
    (stC1'.dealer.hole_card_revealed = false ∧
      ∃ hc new, stC1'.dealer.hand.hole_card = some hc ∧
        stC1'.exposed = stC1.exposed ++ new ∧ hc ∉ new ∧
        hc ∉ stC1'.shoe.cards) ∧
    (∃ new, stC1w.exposed = stC1'.exposed ++ new ∧
      (∀ c ∈ new, c ∈ stC1'.shoe.cards) ∧
      stC1w.shoe.cards ⊆ stC1'.shoe.cards ∧ stC1w.dealer = stC1'.dealer) ∧
    (stC1' = stC1') ∧
    (stScenBres.exposed = stScenB.exposed ++ [fiveH] ∧
      stScenBres.dealer.hole_card_revealed = true) ∧
    (stC1e'.dealer.hole_card_revealed = true ∧
      ∃ rest, stC1e'.exposed = stC1e.exposed ++ fiveH :: rest) :=
  ⟨c1_hole_card_exposure_timing.1 stC1 [aceS] none stC1' (by decide) (by decide)
      (by
        have hns : stC1.shoe.needs_shuffle = false := by
          unfold Shoe.needs_shuffle Shoe.penetration_reached
          rw [decide_eq_false_iff_not]
          intro hge
          norm_num [stC1] at hge
        have hshuffle : stC1.start_round_shuffle [aceS] = stC1 := by
          unfold EngineState.start_round_shuffle
          rw [hns]
          rfl
        unfold EngineState.start_round
        rw [hshuffle]
        rfl),
   c1_hole_card_exposure_timing.2.1 stC1' .hit 0 (some eightC) stC1w rfl,
   c1_hole_card_exposure_timing.2.2.1 stC1' stC1' rfl,
   c1_hole_card_exposure_timing.2.2.2.1 stScenB stScenBres summScenB fiveH
     rfl rfl,
   c1_hole_card_exposure_timing.2.2.2.2 stC1e stC1e' fiveH rfl rfl⟩

end Blackjack
